import Mathlib

/-!
Verification of the network/chart core of the `ditto` repository.

The TypeScript sources `src/utils/chart.ts` and `src/utils/async.ts` are
shallowly embedded below.  JavaScript objects used as string-keyed maps are
embedded as association lists `List (String × α)` in insertion order, with
`jget`/`jset` reproducing JavaScript property read/write semantics (an update
keeps the entry position, an insert appends at the end).  Code paths that
would throw a `TypeError` in JavaScript (reading a property of `undefined`)
are embedded in the `Option` monad and return `none`.

The network store (`src/store/models/network.ts`) is not part of the sources;
the parts of it needed by the claims are modelled from the specification and
are marked `Modelled from the spec:` in their doc comments.
-/

/-! ## Association-list maps with JavaScript object semantics -/

/-- Read a property: first entry with the key, as JavaScript property lookup. -/
def jget {α : Type} (m : List (String × α)) (k : String) : Option α :=
  match m with
  | [] => none
  | (k', v) :: t => if k' = k then some v else jget t k

/-- Write a property: update the first entry in place, append when absent,
as JavaScript property assignment on an object. -/
def jset {α : Type} (m : List (String × α)) (k : String) (v : α) :
    List (String × α) :=
  match m with
  | [] => [(k, v)]
  | (k', v') :: t => if k' = k then (k', v) :: t else (k', v') :: jset t k v

/-- The keys of the map, in order, as `Object.keys`. -/
def jkeys {α : Type} (m : List (String × α)) : List String :=
  m.map Prod.fst

/-- Keep only the entries whose key satisfies the predicate (the functional
counterpart of iterating `Object.keys` and `delete`-ing non-matching keys). -/
def jfilter {α : Type} (P : String → Bool) (m : List (String × α)) :
    List (String × α) :=
  m.filter (fun kv => P kv.1)

/-! ## Shared node and network types (src/types, shared/types) -/

/-- Status enum from `shared/types`. -/
inductive Status where
  | Starting
  | Started
  | Stopping
  | Stopped
  | Error
  deriving DecidableEq, Repr, Inhabited

/-- Bitcoin node: fields of `BitcoinNode` used by the embedded code. -/
structure BitcoinNode where
  id : Nat
  name : String
  implementation : String
  peers : List String
  status : Status
  deriving DecidableEq, Repr, Inhabited

/-- Lightning node: fields of `LightningNode` used by the embedded code. -/
structure LightningNode where
  id : Nat
  name : String
  implementation : String
  backendName : String
  status : Status
  deriving DecidableEq, Repr, Inhabited

/-- Taro daemon node: fields of `TarodNode` used by the embedded code. -/
structure TarodNode where
  id : Nat
  name : String
  implementation : String
  lndName : String
  status : Status
  deriving DecidableEq, Repr, Inhabited

/-- The three node lists of a network (`network.nodes`). -/
structure NetworkNodes where
  bitcoin : List BitcoinNode
  lightning : List LightningNode
  taro : List TarodNode
  deriving DecidableEq, Repr, Inhabited

/-- Network entity from `src/types`. -/
structure Network where
  id : Nat
  name : String
  status : Status
  path : String
  nodes : NetworkNodes
  deriving DecidableEq, Repr, Inhabited

/-! ## Chart types (the `IChart` family of @mrblenny/react-flow-chart,
restricted to the fields the embedded code reads or writes) -/

structure IPosition where
  x : Int
  y : Int
  deriving DecidableEq, Repr, Inhabited

structure ISize where
  width : Int
  height : Int
  deriving DecidableEq, Repr, Inhabited

/-- Properties stored on channel ports; `initiator` is only present on the
initiating side, mirrored by an `Option` field. -/
structure PortProperties where
  nodeId : String
  initiator : Option Bool
  deriving DecidableEq, Repr, Inhabited

structure IPort where
  id : String
  type : String
  properties : Option PortProperties
  deriving DecidableEq, Repr, Inhabited

/-- An endpoint of a link (the `from`/`to` fields of `ILink`). -/
structure FlowPoint where
  nodeId : String
  portId : String
  deriving DecidableEq, Repr, Inhabited

/-- The full channel-link property record (`LinkProperties` in chart.ts). -/
structure LinkProperties where
  type : String
  channelPoint : String
  capacity : String
  fromBalance : String
  toBalance : String
  direction : String
  status : String
  isPrivate : Bool
  deriving DecidableEq, Repr, Inhabited

/-- Link properties are either the bare `{ type: ... }` object used for
backend/btcpeer/lndbackend links, or the full channel record. -/
inductive ILinkProps where
  | basic (type : String)
  | channel (props : LinkProperties)
  deriving DecidableEq, Repr, Inhabited

/-- A chart link; `fromEnd`/`toEnd` embed the JavaScript `from`/`to` fields
(`from` is a reserved word in Lean). -/
structure ILink where
  id : String
  fromEnd : FlowPoint
  toEnd : FlowPoint
  properties : ILinkProps
  deriving DecidableEq, Repr, Inhabited

/-- Chart node display properties set by the node builders. -/
structure NodeProperties where
  status : Status
  icon : String
  deriving DecidableEq, Repr, Inhabited

structure INode where
  id : String
  type : String
  position : IPosition
  ports : List (String × IPort)
  size : Option ISize
  properties : NodeProperties
  deriving DecidableEq, Repr, Inhabited

/-- The `selected`/`hovered` cursor; `{}` is represented by both fields
`none`. -/
structure ISelected where
  type : Option String
  id : Option String
  deriving DecidableEq, Repr, Inhabited

structure IChart where
  offset : IPosition
  nodes : List (String × INode)
  links : List (String × ILink)
  selected : ISelected
  hovered : ISelected
  scale : Int
  deriving DecidableEq, Repr, Inhabited

/-! ## Live lightning-node data (lib/lightning/types, store/models/lightning) -/

/-- Fields of `LightningNodeChannel` read by chart.ts. -/
structure LightningNodeChannel where
  pending : Bool
  uniqueId : String
  channelPoint : String
  pubkey : String
  capacity : String
  localBalance : String
  remoteBalance : String
  status : String
  isPrivate : Bool
  deriving DecidableEq, Repr, Inhabited

/-- The only field of `LightningNodeInfo` read by chart.ts. -/
structure LightningNodeInfoLite where
  pubkey : String
  deriving DecidableEq, Repr, Inhabited

/-- Per-node live state (`LightningNodeModel`): both fields are optional. -/
structure LightningNodeData where
  info : Option LightningNodeInfoLite
  channels : Option (List LightningNodeChannel)
  deriving DecidableEq, Repr, Inhabited

/-- `LightningNodeMapping`: node name to live state. -/
def LightningNodeMapping : Type := List (String × LightningNodeData)

/-! ## chart.ts: node builders and initChartFromNetwork -/

/-- Modelled from the spec: `dockerConfigs` (utils/constants, not among the
sources) supplies per-implementation display metadata; only the `logo` string
reaches the chart, so it is modelled as a function of the implementation. -/
def dockerConfigsLogo (implementation : String) : String :=
  implementation ++ ".png"

/-- createLightningChartNode from chart.ts. -/
def createLightningChartNode (ln : LightningNode) : INode × ILink :=
  let node : INode :=
    { id := ln.name
      type := "lightning"
      position := { x := (ln.id : Int) * 250 + 50
                    y := if ln.id % 2 = 0 then 100 else 200 }
      ports := [("empty-left", { id := "empty-left", type := "left", properties := none }),
                ("empty-right", { id := "empty-right", type := "right", properties := none }),
                ("backend", { id := "backend", type := "bottom", properties := none })]
      size := some { width := 200, height := 36 }
      properties := { status := ln.status, icon := dockerConfigsLogo ln.implementation } }
  let lndPort : IPort := { id := "lndbackend", type := "top", properties := none }
  let node :=
    if ln.implementation = "LND" then
      { node with ports := jset node.ports "lndbackend" lndPort }
    else node
  let link : ILink :=
    { id := ln.name ++ "-" ++ ln.backendName
      fromEnd := { nodeId := ln.name, portId := "backend" }
      toEnd := { nodeId := ln.backendName, portId := "backend" }
      properties := .basic "backend" }
  (node, link)

/-- createTarodChartNode from chart.ts. -/
def createTarodChartNode (taro : TarodNode) : INode × ILink :=
  let node : INode :=
    { id := taro.name
      type := "taro"
      position := { x := (taro.id : Int) * 250 + 50
                    y := if taro.id % 2 = 0 then 100 else 200 }
      ports := [("lndbackend", { id := "lndbackend", type := "bottom", properties := none })]
      size := some { width := 200, height := 36 }
      properties := { status := taro.status, icon := dockerConfigsLogo taro.implementation } }
  let link : ILink :=
    { id := taro.name ++ "-" ++ taro.lndName
      fromEnd := { nodeId := taro.name, portId := "lndbackend" }
      toEnd := { nodeId := taro.lndName, portId := "lndbackend" }
      properties := .basic "lndbackend" }
  (node, link)

/-- Lexicographic strict order on character lists, as a computable Boolean.
This is JavaScript string comparison (code-unit lexicographic order); the
theorem charLtb_lt_iff below shows it agrees with the `<` order on String. -/
def charLtb : List Char → List Char → Bool
  | _, [] => false
  | [], _ :: _ => true
  | a :: as, b :: bs =>
    if a < b then true
    else if b < a then false
    else charLtb as bs

/-- createBitcoinChartNode from chart.ts.  The link is only produced when the
first peer exists (is truthy) and `btc.name > peer` in JavaScript string
order, embedded with the computable comparison charLtb (the same code-unit
lexicographic order). -/
def createBitcoinChartNode (btc : BitcoinNode) : INode × Option ILink :=
  let node : INode :=
    { id := btc.name
      type := "bitcoin"
      position := { x := (btc.id : Int) * 250 + 200
                    y := if btc.id % 2 = 0 then 400 else 500 }
      ports := [("backend", { id := "backend", type := "top", properties := none }),
                ("peer-left", { id := "peer-left", type := "left", properties := none }),
                ("peer-right", { id := "peer-right", type := "right", properties := none })]
      size := some { width := 200, height := 36 }
      properties := { status := btc.status, icon := dockerConfigsLogo btc.implementation } }
  let link : Option ILink :=
    match btc.peers.head? with
    | none => none
    | some peer =>
      if peer = "" then none
      else if charLtb peer.data btc.name.data then
        some { id := peer ++ "-" ++ btc.name
               fromEnd := { nodeId := peer, portId := "peer-right" }
               toEnd := { nodeId := btc.name, portId := "peer-left" }
               properties := .basic "btcpeer" }
      else none
  (node, link)

/-- initChartFromNetwork from chart.ts. -/
def initChartFromNetwork (network : Network) : IChart :=
  let chart : IChart :=
    { offset := { x := 0, y := 0 }
      nodes := []
      links := []
      selected := { type := none, id := none }
      hovered := { type := none, id := none }
      scale := 1 }
  let chart := network.nodes.bitcoin.foldl
    (fun chart n =>
      let nl := createBitcoinChartNode n
      let chart := { chart with nodes := jset chart.nodes nl.1.id nl.1 }
      match nl.2 with
      | some link => { chart with links := jset chart.links link.id link }
      | none => chart)
    chart
  let chart := network.nodes.lightning.foldl
    (fun chart n =>
      let nl := createLightningChartNode n
      { chart with nodes := jset chart.nodes nl.1.id nl.1,
                   links := jset chart.links nl.2.id nl.2 })
    chart
  let chart := network.nodes.taro.foldl
    (fun chart n =>
      let nl := createTarodChartNode n
      { chart with nodes := jset chart.nodes nl.1.id nl.1,
                   links := jset chart.links nl.2.id nl.2 })
    chart
  chart

/-! ## chart.ts: updateChartFromNodes and its helpers -/

/-- updateNodeSize from chart.ts. -/
def updateNodeSize (node : INode) : INode :=
  let size := node.size.getD { width := 200, height := 36 }
  let leftPorts := (node.ports.filter (fun p => p.2.type == "left")).length
  let rightPorts := (node.ports.filter (fun p => p.2.type == "right")).length
  let numPorts := max (max leftPorts rightPorts) 1
  { node with size := some { size with height := (numPorts : Int) * 24 + 12 } }

/-- JavaScript truthiness of `pubkeys[c.pubkey]`: defined and non-empty. -/
def truthyName : Option String → Bool
  | none => false
  | some s => s ≠ ""

/-- The `pubkeys` lookup built at the top of updateChartFromNodes: skips
entries whose `info` or `info.pubkey` is falsy. -/
def buildPubkeys (nodesData : LightningNodeMapping) : List (String × String) :=
  nodesData.foldl
    (fun pubkeys entry =>
      match entry.2.info with
      | none => pubkeys
      | some info =>
        if info.pubkey = "" then pubkeys else jset pubkeys info.pubkey entry.1)
    []

/-- updateLinksAndPorts from chart.ts.  The JavaScript function mutates the
shared node objects held in `nodes`; the embedding passes the maps through
explicitly.  `none` is returned where the JavaScript would throw a
`TypeError` (an endpoint node missing from the chart). -/
def updateLinksAndPorts (chan : LightningNodeChannel)
    (pubkeys : List (String × String)) (nodes : List (String × INode))
    (fromName : String) (links : List (String × ILink)) :
    Option (List (String × INode) × List (String × ILink)) := do
  let chanId := chan.uniqueId
  let toName ← jget pubkeys chan.pubkey
  let fromNode ← jget nodes fromName
  let toNode ← jget nodes toName
  let fromOnLeftSide := fromNode.position.x < toNode.position.x
  -- create or update the port on the from node
  let fromPort : IPort :=
    { id := chanId
      type := if fromOnLeftSide then "right" else "left"
      properties := some { nodeId := fromNode.id, initiator := some true } }
  let nodes := jset nodes fromName { fromNode with ports := jset fromNode.ports chanId fromPort }
  -- create or update the port on the to node (reading the node object again,
  -- since the JavaScript mutation above is visible through the alias)
  let toNode ← jget nodes toName
  let toPort : IPort :=
    { id := chanId
      type := if fromOnLeftSide then "left" else "right"
      properties := some { nodeId := toNode.id, initiator := none } }
  let nodes := jset nodes toName { toNode with ports := jset toNode.ports chanId toPort }
  let props : LinkProperties :=
    { type := if chan.pending then "pending-channel" else "open-channel"
      channelPoint := chan.channelPoint
      capacity := chan.capacity
      fromBalance := chan.localBalance
      toBalance := chan.remoteBalance
      direction := if fromOnLeftSide then "ltr" else "rtl"
      status := chan.status
      isPrivate := chan.isPrivate }
  -- create or update the link
  let link : ILink :=
    { id := chanId
      fromEnd := { nodeId := fromNode.id, portId := chanId }
      toEnd := { nodeId := toName, portId := chanId }
      properties := .channel props }
  some (nodes, jset links chanId link)

/-- The inner `forEach` over one node's filtered channels: apply
updateLinksAndPorts and push the channel's unique id on the keep-list. -/
def chartChannelFold (pubkeys : List (String × String)) (fromName : String)
    (st : (List (String × INode) × List (String × ILink)) × List String)
    (channels : List LightningNodeChannel) :
    Option ((List (String × INode) × List (String × ILink)) × List String) :=
  channels.foldlM
    (fun st channel => do
      let (nodes, links) ← updateLinksAndPorts channel pubkeys st.1.1 fromName st.1.2
      pure ((nodes, links), st.2 ++ [channel.uniqueId]))
    st

/-- One entry of the outer `Object.entries(nodesData).forEach` loop.  After
the channels are processed, `nodes[fromName] = { ...fromNode }` re-writes the
entry with a shallow copy of the (already mutated) node object, which is a
presence check plus an in-place rewrite of the current value. -/
def chartEntryPass (pubkeys : List (String × String))
    (st : (List (String × INode) × List (String × ILink)) × List String)
    (entry : String × LightningNodeData) :
    Option ((List (String × INode) × List (String × ILink)) × List String) :=
  match entry.2.channels with
  | none => some st
  | some channels => do
    let valid := channels.filter (fun c => truthyName (jget pubkeys c.pubkey))
    let st ← chartChannelFold pubkeys entry.1 st valid
    let fromNode ← jget st.1.1 entry.1
    some ((jset st.1.1 entry.1 fromNode, st.1.2), st.2)

/-- The port ids never deleted by the pruning step of updateChartFromNodes. -/
def specialPortIds : List String :=
  ["empty-left", "empty-right", "backend", "peer-left", "peer-right", "lndbackend"]

/-- The `network.nodes.lightning.forEach` block: re-insert each
lightning→backend link if absent and push its id on the keep-list. -/
def ensureBackendLinks (network : Network)
    (st : List (String × ILink) × List String) :
    List (String × ILink) × List String :=
  network.nodes.lightning.foldl
    (fun st ln =>
      let id := ln.name ++ "-" ++ ln.backendName
      let links :=
        match jget st.1 id with
        | some _ => st.1
        | none => jset st.1 id
            { id := id
              fromEnd := { nodeId := ln.name, portId := "backend" }
              toEnd := { nodeId := ln.backendName, portId := "backend" }
              properties := .basic "backend" }
      (links, st.2 ++ [id]))
    st

/-- The `network.nodes.bitcoin.forEach((btc, i))` block: skip the first node
and nodes with a falsy first peer, re-insert the peer link if absent, push
its id. -/
def ensureBitcoinLinks (network : Network)
    (st : List (String × ILink) × List String) :
    List (String × ILink) × List String :=
  network.nodes.bitcoin.enum.foldl
    (fun st ib =>
      if ib.1 = 0 then st
      else
        match ib.2.peers.head? with
        | none => st
        | some peer =>
          if peer = "" then st
          else
            let id := peer ++ "-" ++ ib.2.name
            let links :=
              match jget st.1 id with
              | some _ => st.1
              | none => jset st.1 id
                  { id := id
                    fromEnd := { nodeId := peer, portId := "peer-right" }
                    toEnd := { nodeId := ib.2.name, portId := "peer-left" }
                    properties := .basic "btcpeer" }
            (links, st.2 ++ [id]))
    st

/-- The `network.nodes.taro.forEach` block: re-insert each taro→lnd link if
absent and push its id. -/
def ensureTaroLinks (network : Network)
    (st : List (String × ILink) × List String) :
    List (String × ILink) × List String :=
  network.nodes.taro.foldl
    (fun st taro =>
      let id := taro.name ++ "-" ++ taro.lndName
      let links :=
        match jget st.1 id with
        | some _ => st.1
        | none => jset st.1 id
            { id := id
              fromEnd := { nodeId := taro.name, portId := "lndbackend" }
              toEnd := { nodeId := taro.lndName, portId := "lndbackend" }
              properties := .basic "lndbackend" }
      (links, st.2 ++ [id]))
    st

/-- The link-pruning pass: delete every link whose id is not on the
keep-list. -/
def pruneLinks (linksToKeep : List String) (links : List (String × ILink)) :
    List (String × ILink) :=
  jfilter (fun linkId => linksToKeep.contains linkId) links

/-- The port-pruning pass: on every node, delete every port that is neither
special nor on the keep-list. -/
def prunePorts (linksToKeep : List String) (nodes : List (String × INode)) :
    List (String × INode) :=
  nodes.map (fun kv =>
    (kv.1, { kv.2 with ports := (jfilter
      (fun portId => specialPortIds.contains portId || linksToKeep.contains portId)
      kv.2.ports) }))

/-- The final `Object.keys(nodesData).forEach(name => updateNodeSize(...))`
pass; `none` when a data entry has no chart node (a `TypeError` in the
JavaScript). -/
def resizeNodes (nodesData : LightningNodeMapping)
    (nodes : List (String × INode)) : Option (List (String × INode)) :=
  nodesData.foldlM
    (fun nodes entry => do
      let node ← jget nodes entry.1
      pure (jset nodes entry.1 (updateNodeSize node)))
    nodes

/-- The final selection handling:
`chart.selected && chart.selected.type === 'node' ? chart.selected : {}`. -/
def normalizeSelected (selected : ISelected) : ISelected :=
  if selected.type = some "node" then selected else { type := none, id := none }

/-- updateChartFromNodes from chart.ts, phase by phase. -/
def updateChartFromNodes (chart : IChart) (network : Network)
    (nodesData : LightningNodeMapping) : Option IChart := do
  let pubkeys := buildPubkeys nodesData
  let st ← nodesData.foldlM (chartEntryPass pubkeys) ((chart.nodes, chart.links), [])
  let st2 := ensureBackendLinks network (st.1.2, st.2)
  let st2 := ensureBitcoinLinks network st2
  let st2 := ensureTaroLinks network st2
  let links := pruneLinks st2.2 st2.1
  let nodes := prunePorts st2.2 st.1.1
  let nodes ← resizeNodes nodesData nodes
  pure { chart with
          nodes := nodes
          links := links
          selected := normalizeSelected chart.selected }

/-! ## async.ts: waitFor

The condition function is embedded as a sequence of attempt outcomes
`Nat → Except ε α` (attempt 0 is the immediate initial attempt, attempt `k`
the `k`-th interval tick).  The JavaScript countdown starts at
`timeout / interval` (floating-point division), is decremented once per
failing tick, and the rejection happens on the first failing tick that starts
with the countdown at or below zero; that is, `⌈timeout/interval⌉` further
failing ticks are tolerated, and the next failing tick rejects with its
error.  For positive `interval` that ceiling is the natural-number ceiling
division `(timeout + interval - 1) / interval` (the theorem waitForBudget_eq
proves the two agree); `interval = 0` gives division by zero (Infinity) in
JavaScript, under which the countdown never expires, so the embedding is
stated for positive intervals only. -/

/-- Number of failing ticks tolerated before the rejecting tick. -/
def waitForBudget (interval timeout : Nat) : Nat :=
  (timeout + interval - 1) / interval

/-- The setInterval loop of waitFor: attempt, resolve on success; on failure
either reject (budget exhausted) or retry on the next tick. -/
def waitForLoop {ε α : Type} (conditionFunc : Nat → Except ε α) (k : Nat) :
    Nat → Except ε α
  | 0 => conditionFunc k
  | r + 1 =>
    match conditionFunc k with
    | .ok a => .ok a
    | .error _ => waitForLoop conditionFunc (k + 1) r

/-- waitFor from async.ts: an immediate initial attempt whose failure is
swallowed, then the bounded polling loop. -/
def waitFor {ε α : Type} (conditionFunc : Nat → Except ε α)
    (interval : Nat) (timeout : Nat) : Except ε α :=
  match conditionFunc 0 with
  | .ok a => .ok a
  | .error _ => waitForLoop conditionFunc 1 (waitForBudget interval timeout)

/-! ## Network registry and lifecycle orchestration

The implementation file (store/models/network.ts) is not among the sources;
these definitions are modelled from the specification (sections 4.2, 4.3 and
7).  Mutating actions return the next registry state; actions that can both
mutate and fail (start/stop/toggle) return the next state together with the
result, because a collaborator failure must leave Error statuses behind while
the returned promise still rejects. -/

/-- Modelled from the spec: the error taxonomy of section 7. -/
inductive AppError where
  | notFound (message : String)
  | validation (message : String)
  | invariant (message : String)
  | noOp (message : String)
  | transport (message : String)
  deriving DecidableEq, Repr, Inhabited

/-- Modelled from the spec: the Network Registry, the single in-memory list
of networks. -/
structure RegistryState where
  networks : List Network
  deriving DecidableEq, Repr, Inhabited

/-- Modelled from the spec: networkById, failing with NotFoundError for any
non-matching id. -/
def getById (st : RegistryState) (id : Nat) : Except AppError Network :=
  match st.networks.find? (fun n => n.id == id) with
  | some n => .ok n
  | none =>
    .error (.notFound ("Network with the id \x27" ++ toString id ++ "\x27 was not found."))

/-- Modelled from the spec: status transitions set the Network status and the
status of every node in lockstep. -/
def setAllStatus (status : Status) (net : Network) : Network :=
  { net with
    status := status
    nodes :=
      { bitcoin := net.nodes.bitcoin.map (fun n => { n with status := status })
        lightning := net.nodes.lightning.map (fun n => { n with status := status })
        taro := net.nodes.taro.map (fun n => { n with status := status }) } }

/-- Modelled from the spec: write a network back into the registry by id. -/
def putNetwork (st : RegistryState) (net : Network) : RegistryState :=
  { networks := st.networks.map (fun n => if n.id = net.id then net else n) }

/-- Modelled from the spec: start(id) resolves the network, sets Network and
all Nodes to Starting, invokes the container collaborator, and on failure
sets everything to Error and re-raises the original error message. -/
def startNetwork (dockerStart : Network → Except String Unit)
    (st : RegistryState) (id : Nat) : RegistryState × Except AppError Unit :=
  match getById st id with
  | .error e => (st, .error e)
  | .ok net =>
    let starting := setAllStatus .Starting net
    let st1 := putNetwork st starting
    match dockerStart starting with
    | .ok _ => (putNetwork st1 (setAllStatus .Started starting), .ok ())
    | .error msg => (putNetwork st1 (setAllStatus .Error starting), .error (.transport msg))

/-- Modelled from the spec: stop(id), symmetric to start. -/
def stopNetwork (dockerStop : Network → Except String Unit)
    (st : RegistryState) (id : Nat) : RegistryState × Except AppError Unit :=
  match getById st id with
  | .error e => (st, .error e)
  | .ok net =>
    let stopping := setAllStatus .Stopping net
    let st1 := putNetwork st stopping
    match dockerStop stopping with
    | .ok _ => (putNetwork st1 (setAllStatus .Stopped stopping), .ok ())
    | .error msg => (putNetwork st1 (setAllStatus .Error stopping), .error (.transport msg))

/-- Modelled from the spec: toggle(id): start from Stopped or Error, stop
from Started, and do nothing while Starting or Stopping. -/
def toggleNetwork (dockerStart dockerStop : Network → Except String Unit)
    (st : RegistryState) (id : Nat) : RegistryState × Except AppError Unit :=
  match getById st id with
  | .error e => (st, .error e)
  | .ok net =>
    match net.status with
    | .Stopped => startNetwork dockerStart st id
    | .Error => startNetwork dockerStart st id
    | .Started => stopNetwork dockerStop st id
    | .Starting => (st, .ok ())
    | .Stopping => (st, .ok ())

/-- Modelled from the spec: removeBitcoinNode(networkId, nodeName).  The
Backend Compatibility Resolver of section 4.5 (a static table keyed by
implementation and version, whose contents are not among the sources) is
abstracted as the `compat` parameter.  The action fails with InvariantError
when the network has only one bitcoin node, fails with a dependency error
when some dependent lightning node has no compatible remaining backend, and
otherwise re-points dependents to the first compatible remaining backend and
re-links the peer chain: the node whose first peer was the removed node now
points at the removed node\x27s own peers. -/
def removeBitcoinNode (compat : LightningNode → BitcoinNode → Bool)
    (st : RegistryState) (networkId : Nat) (nodeName : String) :
    Except AppError RegistryState :=
  match getById st networkId with
  | .error e => .error e
  | .ok net =>
    if net.nodes.bitcoin.length = 1 then
      .error (.invariant "Cannot remove the only bitcoin node")
    else
      match net.nodes.bitcoin.find? (fun n => n.name == nodeName) with
      | none => .error (.notFound ("The node \x27" ++ nodeName ++ "\x27 was not found."))
      | some removed =>
        let remaining := net.nodes.bitcoin.filter (fun n => n.name ≠ nodeName)
        let dependents := net.nodes.lightning.filter (fun ln => ln.backendName = removed.name)
        if dependents.all (fun ln => remaining.any (fun b => compat ln b)) then
          let lightning := net.nodes.lightning.map (fun ln =>
            if ln.backendName = removed.name then
              match remaining.find? (fun b => compat ln b) with
              | some b => { ln with backendName := b.name }
              | none => ln
            else ln)
          let bitcoin := remaining.map (fun n =>
            if n.peers.head? = some removed.name then { n with peers := removed.peers } else n)
          .ok (putNetwork st
            { net with nodes := { net.nodes with bitcoin := bitcoin, lightning := lightning } })
        else
          .error (.invariant
            "There are no other compatible backends for the dependent nodes to connect to.")

/-! ## Update operations on JavaScript-object maps

The reconciliation passes of updateChartFromNodes are characterised below as
sequences of map updates: unconditional property writes (`set`, the channel
port/link writes) and insert-if-absent writes (`ensure`, the defensive
re-insertion of backend/peer/lndbackend links). -/

/-- A property write, or a write performed only when the key is absent. -/
inductive JOp (α : Type) where
  | set (k : String) (v : α)
  | ensure (k : String) (v : α)
  deriving DecidableEq, Repr

/-- The key an operation targets. -/
def JOp.key {α : Type} : JOp α → String
  | .set k _ => k
  | .ensure k _ => k

/-- Apply one operation to a map. -/
def japply {α : Type} (m : List (String × α)) : JOp α → List (String × α)
  | .set k v => jset m k v
  | .ensure k v =>
    match jget m k with
    | some _ => m
    | none => jset m k v

/-- Apply a sequence of operations left to right. -/
def japplyAll {α : Type} (m : List (String × α)) (ops : List (JOp α)) :
    List (String × α) :=
  ops.foldl japply m

/-- The effect of one operation on the value stored at key `k`. -/
def JOp.step {α : Type} (op : JOp α) (k : String) (cur : Option α) : Option α :=
  match op with
  | .set k' v => if k' = k then some v else cur
  | .ensure k' v =>
    if k' = k then
      match cur with
      | some c => some c
      | none => some v
    else cur

/-- The final value stored at key `k` after a sequence of operations, as a
function of the initial value. -/
def jfinal {α : Type} (ops : List (JOp α)) (k : String) (cur : Option α) : Option α :=
  ops.foldl (fun cur op => op.step k cur) cur

/-- Apply one port operation, addressed to a node of the chart, to the node
map. -/
def japplyPorts (nodes : List (String × INode)) (nop : String × JOp IPort) :
    List (String × INode) :=
  match jget nodes nop.1 with
  | some n => jset nodes nop.1 { n with ports := japply n.ports nop.2 }
  | none => nodes

/-- Apply a sequence of addressed port operations. -/
def japplyPortsAll (nodes : List (String × INode))
    (ops : List (String × JOp IPort)) : List (String × INode) :=
  ops.foldl japplyPorts nodes

/-- The operations of an addressed sequence aimed at one node. -/
def popsAt (ops : List (String × JOp IPort)) (name : String) : List (JOp IPort) :=
  (ops.filter (fun q => q.1 == name)).map Prod.snd

/-- The skeleton of a chart node: the fields updateLinksAndPorts reads
(identity and position). -/
def nodeSkel (n : INode) : String × IPosition := (n.id, n.position)

/-- The skeleton of the whole node map. -/
def jskel (nodes : List (String × INode)) : List (String × (String × IPosition)) :=
  nodes.map (fun p => (p.1, nodeSkel p.2))

/-- The operations one channel contributes: two port writes and one link
write, computed against the node skeletons. -/
def chanPortOps (nodes : List (String × INode)) (pubkeys : List (String × String))
    (fromName : String) (chan : LightningNodeChannel) :
    Option (List (String × JOp IPort) × JOp ILink) := do
  let chanId := chan.uniqueId
  let toName ← jget pubkeys chan.pubkey
  let fromNode ← jget nodes fromName
  let toNode ← jget nodes toName
  let fromOnLeftSide := fromNode.position.x < toNode.position.x
  let fromPort : IPort :=
    { id := chanId
      type := if fromOnLeftSide then "right" else "left"
      properties := some { nodeId := fromNode.id, initiator := some true } }
  let toPort : IPort :=
    { id := chanId
      type := if fromOnLeftSide then "left" else "right"
      properties := some { nodeId := toNode.id, initiator := none } }
  let props : LinkProperties :=
    { type := if chan.pending then "pending-channel" else "open-channel"
      channelPoint := chan.channelPoint
      capacity := chan.capacity
      fromBalance := chan.localBalance
      toBalance := chan.remoteBalance
      direction := if fromOnLeftSide then "ltr" else "rtl"
      status := chan.status
      isPrivate := chan.isPrivate }
  let link : ILink :=
    { id := chanId
      fromEnd := { nodeId := fromNode.id, portId := chanId }
      toEnd := { nodeId := toName, portId := chanId }
      properties := .channel props }
  pure ([(fromName, .set chanId fromPort), (toName, .set chanId toPort)], .set chanId link)

/-- The operations a list of channels contributes, in order. -/
def chanOpsList (nodes : List (String × INode)) (pubkeys : List (String × String))
    (fromName : String) :
    List LightningNodeChannel → Option (List (String × JOp IPort) × List (JOp ILink))
  | [] => some ([], [])
  | c :: rest => do
    let (pops, lop) ← chanPortOps nodes pubkeys fromName c
    let (pr, lr) ← chanOpsList nodes pubkeys fromName rest
    pure (pops ++ pr, lop :: lr)

/-- The operations and keep-ids one nodesData entry contributes; the trailing
presence check mirrors the `nodes[fromName] = { ...fromNode }` write. -/
def entryOps (nodes : List (String × INode)) (pubkeys : List (String × String))
    (entry : String × LightningNodeData) :
    Option (List (String × JOp IPort) × List (JOp ILink) × List String) :=
  match entry.2.channels with
  | none => some ([], [], [])
  | some channels => do
    let valid := channels.filter (fun c => truthyName (jget pubkeys c.pubkey))
    let (pops, lops) ← chanOpsList nodes pubkeys entry.1 valid
    let _ ← jget nodes entry.1
    pure (pops, lops, valid.map (fun c => c.uniqueId))

/-- The operations and keep-ids the whole nodesData pass contributes. -/
def allOps (nodes : List (String × INode)) (pubkeys : List (String × String)) :
    List (String × LightningNodeData) →
    Option (List (String × JOp IPort) × List (JOp ILink) × List String)
  | [] => some ([], [], [])
  | e :: rest => do
    let (p1, l1, i1) ← entryOps nodes pubkeys e
    let (p2, l2, i2) ← allOps nodes pubkeys rest
    pure (p1 ++ p2, l1 ++ l2, i1 ++ i2)

/-- The backend link re-inserted for a lightning node. -/
def lnBackendLinkOf (ln : LightningNode) : ILink :=
  { id := ln.name ++ "-" ++ ln.backendName
    fromEnd := { nodeId := ln.name, portId := "backend" }
    toEnd := { nodeId := ln.backendName, portId := "backend" }
    properties := .basic "backend" }

/-- The ensure operations of the lightning pass. -/
def lnEnsureOps (network : Network) : List (JOp ILink) :=
  network.nodes.lightning.map (fun ln =>
    .ensure (ln.name ++ "-" ++ ln.backendName) (lnBackendLinkOf ln))

/-- The keep-ids pushed by the lightning pass. -/
def lnKeepIds (network : Network) : List String :=
  network.nodes.lightning.map (fun ln => ln.name ++ "-" ++ ln.backendName)

/-- The id and link contributed by an indexed bitcoin node, when any. -/
def btcContrib (ib : Nat × BitcoinNode) : Option (String × ILink) :=
  if ib.1 = 0 then none
  else
    match ib.2.peers.head? with
    | none => none
    | some peer =>
      if peer = "" then none
      else
        some (peer ++ "-" ++ ib.2.name,
          { id := peer ++ "-" ++ ib.2.name
            fromEnd := { nodeId := peer, portId := "peer-right" }
            toEnd := { nodeId := ib.2.name, portId := "peer-left" }
            properties := .basic "btcpeer" })

/-- The ensure operations of the bitcoin pass. -/
def btcEnsureOps (network : Network) : List (JOp ILink) :=
  (network.nodes.bitcoin.enum.filterMap btcContrib).map (fun p => .ensure p.1 p.2)

/-- The keep-ids pushed by the bitcoin pass. -/
def btcKeepIds (network : Network) : List String :=
  (network.nodes.bitcoin.enum.filterMap btcContrib).map Prod.fst

/-- The lndbackend link re-inserted for a taro node. -/
def taroLinkOf (taro : TarodNode) : ILink :=
  { id := taro.name ++ "-" ++ taro.lndName
    fromEnd := { nodeId := taro.name, portId := "lndbackend" }
    toEnd := { nodeId := taro.lndName, portId := "lndbackend" }
    properties := .basic "lndbackend" }

/-- The ensure operations of the taro pass. -/
def taroEnsureOps (network : Network) : List (JOp ILink) :=
  network.nodes.taro.map (fun taro => .ensure (taro.name ++ "-" ++ taro.lndName) (taroLinkOf taro))

/-- The keep-ids pushed by the taro pass. -/
def taroKeepIds (network : Network) : List String :=
  network.nodes.taro.map (fun taro => taro.name ++ "-" ++ taro.lndName)

/-- The keep-ids contributed by the live channels (independent of the chart). -/
def liveChannelIds (pubkeys : List (String × String)) :
    List (String × LightningNodeData) → List String
  | [] => []
  | e :: rest =>
    (match e.2.channels with
     | none => []
     | some channels =>
       (channels.filter (fun c => truthyName (jget pubkeys c.pubkey))).map
         (fun c => c.uniqueId)) ++ liveChannelIds pubkeys rest

/-- The complete keep-list of one reconciliation pass: live channel ids plus
the backend, bitcoin-peer and lndbackend link ids derived from the network. -/
def keepListOf (network : Network) (nodesData : LightningNodeMapping) : List String :=
  liveChannelIds (buildPubkeys nodesData) nodesData ++
    lnKeepIds network ++ btcKeepIds network ++ taroKeepIds network

/-- All ensure operations of the defensive re-insertion passes, in order. -/
def ensureOpsOf (network : Network) : List (JOp ILink) :=
  lnEnsureOps network ++ btcEnsureOps network ++ taroEnsureOps network

/-- Well-formedness of a chart as a JavaScript value: object keys are unique. -/
def WfChart (chart : IChart) : Prop :=
  (jkeys chart.nodes).Nodup ∧ (jkeys chart.links).Nodup ∧
    ∀ kv ∈ chart.nodes, (jkeys kv.2.ports).Nodup

/-- Well-formedness of the live data map: object keys are unique. -/
def WfMapping (nodesData : LightningNodeMapping) : Prop :=
  (jkeys nodesData).Nodup

/-- The link ids generated by initChartFromNetwork, in insertion order. -/
def initLinkIds (network : Network) : List String :=
  network.nodes.bitcoin.filterMap (fun btc =>
    match btc.peers.head? with
    | none => none
    | some peer =>
      if peer = "" then none
      else if charLtb peer.data btc.name.data then some (peer ++ "-" ++ btc.name)
      else none) ++
  network.nodes.lightning.map (fun ln => ln.name ++ "-" ++ ln.backendName) ++
  network.nodes.taro.map (fun taro => taro.name ++ "-" ++ taro.lndName)

/-! ## Helper definitions for the statements and witnesses -/

/-- Insert a list of links into a map, keyed by their id field (the shape of
the link insertions performed by initChartFromNetwork). -/
def jsetAll (m : List (String × ILink)) (ls : List ILink) : List (String × ILink) :=
  ls.foldl (fun m l => jset m l.id l) m

/-- The links initChartFromNetwork inserts, in insertion order. -/
def initLinksList (network : Network) : List ILink :=
  network.nodes.bitcoin.filterMap (fun btc => (createBitcoinChartNode btc).2) ++
  network.nodes.lightning.map (fun ln => (createLightningChartNode ln).2) ++
  network.nodes.taro.map (fun taro => (createTarodChartNode taro).2)

/-- A network with no nodes at all. -/
def emptyNetwork : Network :=
  { id := 1, name := "empty", status := .Stopped, path := ""
    nodes := { bitcoin := [], lightning := [], taro := [] } }

/-- Witness input for the reconciliation claims: one bitcoin and one
lightning node. -/
def exNetwork1 : Network :=
  { id := 1, name := "test", status := .Stopped, path := ""
    nodes :=
      { bitcoin := [{ id := 0, name := "backend1", implementation := "bitcoind"
                      peers := [], status := .Stopped }]
        lightning := [{ id := 0, name := "alice", implementation := "LND"
                        backendName := "backend1", status := .Stopped }]
        taro := [] } }

/-- Witness live data: alice reports one channel to bob; bob is absent from
the chart on purpose in some counterexamples, and present in witnesses. -/
def exChannelData : LightningNodeData :=
  { info := some { pubkey := "pk-alice" }, channels := some [] }

/-- Witness chart for the idempotence claim. -/
def exChart1 : IChart := initChartFromNetwork exNetwork1

/-- Witness live mapping for the idempotence claim. -/
def exData1 : LightningNodeMapping := [("alice", exChannelData)]

/-- First pass output for the idempotence witness. -/
def exOut1 : IChart :=
  (updateChartFromNodes exChart1 exNetwork1 exData1).getD default

/-- Counterexample network for the bitcoin peer-link claim: the tenth backend
sorts below the ninth in string order. -/
def cexNetwork3 : Network :=
  { id := 1, name := "ten", status := .Stopped, path := ""
    nodes :=
      { bitcoin :=
          [{ id := 0, name := "backend9", implementation := "bitcoind"
             peers := [], status := .Stopped },
           { id := 1, name := "backend10", implementation := "bitcoind"
             peers := ["backend9"], status := .Stopped }]
        lightning := []
        taro := [] } }

/-- The second bitcoin node of the counterexample network. -/
def cexBtc10 : BitcoinNode :=
  { id := 1, name := "backend10", implementation := "bitcoind"
    peers := ["backend9"], status := .Stopped }

/-- Witness network for the amended peer-link claim: two backends in string
order. -/
def exNetwork3 : Network :=
  { id := 1, name := "two", status := .Stopped, path := ""
    nodes :=
      { bitcoin :=
          [{ id := 0, name := "backend1", implementation := "bitcoind"
             peers := [], status := .Stopped },
           { id := 1, name := "backend2", implementation := "bitcoind"
             peers := ["backend1"], status := .Stopped }]
        lightning := []
        taro := [] } }

/-- The second bitcoin node of the witness network. -/
def exBtc2 : BitcoinNode :=
  { id := 1, name := "backend2", implementation := "bitcoind"
    peers := ["backend1"], status := .Stopped }

/-- Counterexample chart for the pruning claim: one lightning chart node that
carries only its special ports, and one stale link. -/
def cexChart4 : IChart :=
  { offset := { x := 0, y := 0 }
    nodes := [("alice",
      { id := "alice", type := "lightning", position := { x := 50, y := 100 }
        ports := [("empty-left", { id := "empty-left", type := "left", properties := none })]
        size := some { width := 200, height := 36 }
        properties := { status := .Stopped, icon := "LND.png" } })]
    links := [("stale",
      { id := "stale"
        fromEnd := { nodeId := "alice", portId := "empty-left" }
        toEnd := { nodeId := "bob", portId := "empty-left" }
        properties := .basic "open-channel" })]
    selected := { type := none, id := none }
    hovered := { type := none, id := none }
    scale := 1 }

/-- The alice chart node of the pruning counterexample, unchanged by a pass. -/
def cexChart4AliceNode : INode :=
  { id := "alice", type := "lightning", position := { x := 50, y := 100 }
    ports := [("empty-left", { id := "empty-left", type := "left", properties := none })]
    size := some { width := 200, height := 36 }
    properties := { status := .Stopped, icon := "LND.png" } }

/-- Output of the pruning counterexample pass. -/
def cexOut4 : IChart := (updateChartFromNodes cexChart4 emptyNetwork []).getD default

/-- Counterexample chart for the selection claim: a node-type selection that
points at a node that does not exist. -/
def cexChart5 : IChart :=
  { offset := { x := 0, y := 0 }
    nodes := []
    links := []
    selected := { type := some "node", id := some "ghost" }
    hovered := { type := none, id := none }
    scale := 1 }

/-- Output of the selection counterexample pass. -/
def cexOut5 : IChart := (updateChartFromNodes cexChart5 emptyNetwork []).getD default

/-- Witness chart for the pruning and node-preservation claims. -/
def exOut4w : IChart := (updateChartFromNodes cexChart4 emptyNetwork []).getD default

/-- A compatibility table that accepts every pairing. -/
def compatAll : LightningNode → BitcoinNode → Bool := fun _ _ => true

/-- A compatibility table that rejects every pairing. -/
def compatNone : LightningNode → BitcoinNode → Bool := fun _ _ => false

/-- A three-backend chain network for the removal claims. -/
def c6Network : Network :=
  { id := 1, name := "chain", status := .Stopped, path := ""
    nodes :=
      { bitcoin :=
          [{ id := 0, name := "backend1", implementation := "bitcoind"
             peers := [], status := .Stopped },
           { id := 1, name := "backend2", implementation := "bitcoind"
             peers := ["backend1"], status := .Stopped },
           { id := 2, name := "backend3", implementation := "bitcoind"
             peers := ["backend2"], status := .Stopped }]
        lightning := []
        taro := [] } }

/-- The chain network with a lightning node depending on the middle backend. -/
def c6NetworkDep : Network :=
  { c6Network with
    nodes := { c6Network.nodes with
      lightning := [{ id := 0, name := "dave", implementation := "LND"
                      backendName := "backend2", status := .Stopped }] } }

/-- Registry holding the chain network. -/
def c6Registry : RegistryState := { networks := [c6Network] }

/-- Registry holding the chain network with the dependent lightning node. -/
def c6RegistryDep : RegistryState := { networks := [c6NetworkDep] }

/-- A one-backend network for the last-node removal claim. -/
def c7Network : Network :=
  { id := 1, name := "solo", status := .Stopped, path := ""
    nodes :=
      { bitcoin := [{ id := 0, name := "backend1", implementation := "bitcoind"
                      peers := [], status := .Stopped }]
        lightning := [{ id := 0, name := "alice", implementation := "LND"
                        backendName := "backend1", status := .Stopped }]
        taro := [] } }

/-- Registry holding the one-backend network. -/
def c7Registry : RegistryState := { networks := [c7Network] }

/-- A network mid-flight in the Starting state. -/
def c8NetworkStarting : Network := { exNetwork1 with id := 2, status := .Starting }

/-- A network mid-flight in the Stopping state. -/
def c8NetworkStopping : Network := { exNetwork1 with id := 3, status := .Stopping }

/-- Registry holding both mid-flight networks. -/
def c8Registry : RegistryState := { networks := [c8NetworkStarting, c8NetworkStopping] }

/-- A container collaborator whose start always rejects. -/
def dockerRejecting : Network → Except String Unit := fun _ => .error "start failed"

/-- A container collaborator whose calls always resolve. -/
def dockerOk : Network → Except String Unit := fun _ => .ok ()

/-! ## Lemmas about the map primitives -/

theorem jget_nil {α : Type} (k : String) : jget ([] : List (String × α)) k = none := rfl

theorem jget_cons {α : Type} (k' k : String) (v : α) (t : List (String × α)) :
    jget ((k', v) :: t) k = if k' = k then some v else jget t k := rfl

theorem jget_jset_self {α : Type} (m : List (String × α)) (k : String) (v : α) :
    jget (jset m k v) k = some v := by
  induction m with
  | nil => simp [jget, jset]
  | cons h t ih =>
    obtain ⟨k', v'⟩ := h
    by_cases hk : k' = k
    · simp [jget, jset, hk]
    · simp [jget, jset, hk, ih]

theorem jget_jset_ne {α : Type} (m : List (String × α)) (k k' : String) (v : α)
    (h : k ≠ k') : jget (jset m k v) k' = jget m k' := by
  induction m with
  | nil => simp [jget, jset, h]
  | cons hd t ih =>
    obtain ⟨k₀, v₀⟩ := hd
    by_cases hk : k₀ = k
    · subst hk
      simp [jset, jget, h]
    · simp only [jset, if_neg hk, jget_cons]
      split <;> simp [ih]

theorem jset_self {α : Type} (m : List (String × α)) (k : String) (v : α)
    (h : jget m k = some v) : jset m k v = m := by
  induction m with
  | nil => simp [jget] at h
  | cons hd t ih =>
    obtain ⟨k₀, v₀⟩ := hd
    by_cases hk : k₀ = k
    · simp only [jget_cons, if_pos hk] at h
      cases h
      simp [jset, hk]
    · simp only [jget_cons, if_neg hk] at h
      simp [jset, hk, ih h]

theorem mem_jkeys_iff_isSome {α : Type} (m : List (String × α)) (k : String) :
    k ∈ jkeys m ↔ (jget m k).isSome := by
  induction m with
  | nil => simp [jkeys, jget]
  | cons hd t ih =>
    obtain ⟨k₀, v₀⟩ := hd
    by_cases hk : k₀ = k
    · simp [jkeys, jget, hk]
    · simp only [jkeys, List.map_cons, List.mem_cons, jget_cons, if_neg hk]
      constructor
      · rintro (h | h)
        · exact absurd h.symm hk
        · exact (ih.mp (by simpa [jkeys] using h))
      · intro h
        exact Or.inr (by simpa [jkeys] using ih.mpr h)

theorem jkeys_jset_of_mem {α : Type} (m : List (String × α)) (k : String) (v : α)
    (h : k ∈ jkeys m) : jkeys (jset m k v) = jkeys m := by
  induction m with
  | nil => simp [jkeys] at h
  | cons hd t ih =>
    obtain ⟨k₀, v₀⟩ := hd
    by_cases hk : k₀ = k
    · simp [jset, hk, jkeys]
    · simp only [jkeys, List.map_cons, List.mem_cons] at h
      rcases h with h | h
      · exact absurd h.symm hk
      · have ht := ih (by simpa [jkeys] using h)
        simp only [jset, if_neg hk, jkeys, List.map_cons] at ht ⊢
        simpa [jkeys] using ht

theorem jkeys_jset_of_not_mem {α : Type} (m : List (String × α)) (k : String) (v : α)
    (h : k ∉ jkeys m) : jkeys (jset m k v) = jkeys m ++ [k] := by
  induction m with
  | nil => simp [jset, jkeys]
  | cons hd t ih =>
    obtain ⟨k₀, v₀⟩ := hd
    simp only [jkeys, List.map_cons, List.mem_cons] at h
    push_neg at h
    have ht := ih (by simpa [jkeys] using h.2)
    simp only [jset, if_neg (Ne.symm h.1), jkeys, List.map_cons] at ht ⊢
    simpa [jkeys] using ht

theorem jkeys_jset_nodup {α : Type} (m : List (String × α)) (k : String) (v : α)
    (h : (jkeys m).Nodup) : (jkeys (jset m k v)).Nodup := by
  by_cases hm : k ∈ jkeys m
  · rw [jkeys_jset_of_mem m k v hm]; exact h
  · rw [jkeys_jset_of_not_mem m k v hm]
    simpa [List.nodup_append] using ⟨h, hm⟩

theorem jget_jfilter {α : Type} (P : String → Bool) (m : List (String × α)) (k : String) :
    jget (jfilter P m) k = if P k then jget m k else none := by
  induction m with
  | nil => simp [jfilter, jget]
  | cons hd t ih =>
    obtain ⟨k₀, v₀⟩ := hd
    by_cases hp : P k₀
    · have hkeep : jfilter P ((k₀, v₀) :: t) = (k₀, v₀) :: jfilter P t := by
        simp [jfilter, List.filter_cons, hp]
      by_cases hk : k₀ = k
      · subst hk
        simp [hkeep, jget_cons, hp]
      · simp [hkeep, jget_cons, if_neg hk, ih]
    · have hdrop : jfilter P ((k₀, v₀) :: t) = jfilter P t := by
        simp [jfilter, List.filter_cons, hp]
      by_cases hk : k₀ = k
      · subst hk
        rw [hdrop, ih]
        simp [hp]
      · rw [hdrop, ih]
        simp [jget_cons, if_neg hk]

theorem jkeys_jfilter {α : Type} (P : String → Bool) (m : List (String × α)) :
    jkeys (jfilter P m) = (jkeys m).filter P := by
  induction m with
  | nil => simp [jfilter, jkeys]
  | cons hd t ih =>
    obtain ⟨k₀, v₀⟩ := hd
    by_cases hp : P k₀ <;>
      simp [jfilter, jkeys, List.filter_cons, hp] at ih ⊢ <;> simpa [jfilter, jkeys] using ih

theorem jkeys_jfilter_nodup {α : Type} (P : String → Bool) (m : List (String × α))
    (h : (jkeys m).Nodup) : (jkeys (jfilter P m)).Nodup := by
  rw [jkeys_jfilter]; exact h.filter P

theorem jget_of_mem_nodup {α : Type} (m : List (String × α)) (k : String) (v : α)
    (hnd : (jkeys m).Nodup) (h : (k, v) ∈ m) : jget m k = some v := by
  induction m with
  | nil => simp at h
  | cons hd t ih =>
    obtain ⟨k₀, v₀⟩ := hd
    simp only [jkeys, List.map_cons, List.nodup_cons] at hnd
    rcases List.mem_cons.mp h with h | h
    · cases h
      simp [jget]
    · have hk : k₀ ≠ k := by
        intro hk
        subst hk
        exact hnd.1 (by simpa [jkeys] using List.mem_map_of_mem Prod.fst h)
      simp [jget_cons, if_neg hk]
      exact ih (by simpa [jkeys] using hnd.2) h

theorem jmap_ext {α : Type} (m₁ m₂ : List (String × α))
    (hk : jkeys m₁ = jkeys m₂) (hnd : (jkeys m₁).Nodup)
    (hget : ∀ k, jget m₁ k = jget m₂ k) : m₁ = m₂ := by
  induction m₁ generalizing m₂ with
  | nil =>
    cases m₂ with
    | nil => rfl
    | cons hd t => simp [jkeys] at hk
  | cons hd t ih =>
    obtain ⟨k₀, v₀⟩ := hd
    cases m₂ with
    | nil => simp [jkeys] at hk
    | cons hd₂ t₂ =>
      obtain ⟨k₂, v₂⟩ := hd₂
      simp only [jkeys, List.map_cons, List.cons.injEq] at hk
      obtain ⟨hkeq, hkt⟩ := hk
      subst hkeq
      have h₀ := hget k₀
      simp only [jget_cons, if_pos rfl] at h₀
      cases h₀
      simp only [jkeys, List.map_cons, List.nodup_cons] at hnd
      have ht : t = t₂ := by
        apply ih t₂ (by simpa [jkeys] using hkt) (by simpa [jkeys] using hnd.2)
        intro k
        by_cases hk0 : k₀ = k
        · subst hk0
          have h1 : jget t k₀ = none := by
            cases h : jget t k₀ with
            | none => rfl
            | some v =>
              exact absurd ((mem_jkeys_iff_isSome t k₀).mpr (by simp [h])) (by simpa [jkeys] using hnd.1)
          have h2 : jget t₂ k₀ = none := by
            cases h : jget t₂ k₀ with
            | none => rfl
            | some v =>
              have hmem : k₀ ∈ jkeys t₂ := (mem_jkeys_iff_isSome t₂ k₀).mpr (by simp [h])
              simp only [jkeys] at hmem
              rw [← hkt] at hmem
              exact absurd hmem (by simpa [jkeys] using hnd.1)
          rw [h1, h2]
        · have := hget k
          simpa [jget_cons, if_neg hk0] using this
      rw [ht]

/-! ## Lemmas about update operations -/

theorem japplyAll_nil {α : Type} (m : List (String × α)) : japplyAll m [] = m := rfl

theorem japplyAll_cons {α : Type} (m : List (String × α)) (op : JOp α) (ops : List (JOp α)) :
    japplyAll m (op :: ops) = japplyAll (japply m op) ops := rfl

theorem japplyAll_append {α : Type} (m : List (String × α)) (ops₁ ops₂ : List (JOp α)) :
    japplyAll m (ops₁ ++ ops₂) = japplyAll (japplyAll m ops₁) ops₂ := by
  simp [japplyAll, List.foldl_append]

theorem jfinal_cons {α : Type} (op : JOp α) (ops : List (JOp α)) (k : String) (cur : Option α) :
    jfinal (op :: ops) k cur = jfinal ops k (op.step k cur) := rfl

theorem JOp.step_not_key {α : Type} (op : JOp α) (k : String) (cur : Option α)
    (h : op.key ≠ k) : op.step k cur = cur := by
  cases op <;> simp [JOp.step, JOp.key] at h ⊢ <;> simp [h]

theorem jget_japply {α : Type} (m : List (String × α)) (op : JOp α) (k : String) :
    jget (japply m op) k = op.step k (jget m k) := by
  cases op with
  | set k' v =>
    by_cases hk : k' = k
    · subst hk
      simp [japply, JOp.step, jget_jset_self]
    · simp [japply, JOp.step, hk, jget_jset_ne _ _ _ _ hk]
  | ensure k' v =>
    cases hm : jget m k' with
    | some c =>
      by_cases hk : k' = k
      · subst hk
        simp [japply, hm, JOp.step]
      · simp [japply, hm, JOp.step, hk]
    | none =>
      by_cases hk : k' = k
      · subst hk
        simp [japply, hm, JOp.step, jget_jset_self]
      · simp [japply, hm, JOp.step, hk, jget_jset_ne _ _ _ _ hk]

theorem jget_japplyAll {α : Type} (ops : List (JOp α)) :
    ∀ (m : List (String × α)) (k : String),
      jget (japplyAll m ops) k = jfinal ops k (jget m k) := by
  induction ops with
  | nil => intro m k; rfl
  | cons op rest ih =>
    intro m k
    rw [japplyAll_cons, jfinal_cons, ih, jget_japply]

theorem jkeys_japply_sub {α : Type} (m : List (String × α)) (op : JOp α) :
    ∀ k ∈ jkeys m, k ∈ jkeys (japply m op) := by
  intro k h
  cases op with
  | set k' v =>
    by_cases h' : k' ∈ jkeys m
    · show k ∈ jkeys (jset m k' v)
      rw [jkeys_jset_of_mem _ _ _ h']; exact h
    · show k ∈ jkeys (jset m k' v)
      rw [jkeys_jset_of_not_mem _ _ _ h']
      exact List.mem_append_left _ h
  | ensure k' v =>
    cases hm : jget m k' with
    | some c => simpa [japply, hm] using h
    | none =>
      have h' : k' ∉ jkeys m := by
        rw [mem_jkeys_iff_isSome, hm]; simp
      have : japply m (.ensure k' v) = jset m k' v := by simp [japply, hm]
      rw [this, jkeys_jset_of_not_mem _ _ _ h']
      exact List.mem_append_left _ h

theorem opkey_mem_japply {α : Type} (m : List (String × α)) (op : JOp α) :
    op.key ∈ jkeys (japply m op) := by
  cases op with
  | set k' v =>
    have : japply m (.set k' v) = jset m k' v := rfl
    rw [this, JOp.key, mem_jkeys_iff_isSome, jget_jset_self]
    rfl
  | ensure k' v =>
    cases hm : jget m k' with
    | some c =>
      have : japply m (.ensure k' v) = m := by simp [japply, hm]
      rw [this, JOp.key, mem_jkeys_iff_isSome, hm]
      rfl
    | none =>
      have : japply m (.ensure k' v) = jset m k' v := by simp [japply, hm]
      rw [this, JOp.key, mem_jkeys_iff_isSome, jget_jset_self]
      rfl

theorem jkeys_japply_of_mem {α : Type} (m : List (String × α)) (op : JOp α)
    (h : op.key ∈ jkeys m) : jkeys (japply m op) = jkeys m := by
  cases op with
  | set k' v => exact jkeys_jset_of_mem _ _ _ h
  | ensure k' v =>
    cases hm : jget m k' with
    | some c => simp [japply, hm]
    | none =>
      rw [JOp.key, mem_jkeys_iff_isSome, hm] at h
      simp at h

theorem jkeys_japply_nodup {α : Type} (m : List (String × α)) (op : JOp α)
    (h : (jkeys m).Nodup) : (jkeys (japply m op)).Nodup := by
  cases op with
  | set k' v => exact jkeys_jset_nodup _ _ _ h
  | ensure k' v =>
    cases hm : jget m k' with
    | some c => simpa [japply, hm] using h
    | none =>
      have heq : japply m (.ensure k' v) = jset m k' v := by simp [japply, hm]
      rw [heq]
      exact jkeys_jset_nodup _ _ _ h

theorem jkeys_japplyAll_of_mem {α : Type} (ops : List (JOp α)) :
    ∀ (m : List (String × α)), (∀ op ∈ ops, op.key ∈ jkeys m) →
      jkeys (japplyAll m ops) = jkeys m := by
  induction ops with
  | nil => intro m _; rfl
  | cons op rest ih =>
    intro m h
    rw [japplyAll_cons]
    have h1 : jkeys (japply m op) = jkeys m :=
      jkeys_japply_of_mem _ _ (h op (List.mem_cons_self _ _))
    rw [ih (japply m op) (fun o ho => h1 ▸ h o (List.mem_cons_of_mem _ ho)), h1]

theorem mem_jkeys_japplyAll_mono {α : Type} (ops : List (JOp α)) :
    ∀ (m : List (String × α)) (k : String), k ∈ jkeys m → k ∈ jkeys (japplyAll m ops) := by
  induction ops with
  | nil => intro m k h; exact h
  | cons op rest ih =>
    intro m k h
    rw [japplyAll_cons]
    exact ih _ _ (jkeys_japply_sub _ _ _ h)

theorem opkey_mem_japplyAll {α : Type} (ops : List (JOp α)) :
    ∀ (m : List (String × α)) (op : JOp α), op ∈ ops → op.key ∈ jkeys (japplyAll m ops) := by
  induction ops with
  | nil => intro m op h; simp at h
  | cons op₀ rest ih =>
    intro m op h
    rw [japplyAll_cons]
    rcases List.mem_cons.mp h with h | h
    · subst h
      exact mem_jkeys_japplyAll_mono _ _ _ (opkey_mem_japply _ _)
    · exact ih _ _ h

theorem jkeys_japplyAll_nodup {α : Type} (ops : List (JOp α)) :
    ∀ (m : List (String × α)), (jkeys m).Nodup → (jkeys (japplyAll m ops)).Nodup := by
  induction ops with
  | nil => intro m h; exact h
  | cons op rest ih =>
    intro m h
    rw [japplyAll_cons]
    exact ih _ (jkeys_japply_nodup _ _ h)

theorem jfinal_of_not_key {α : Type} (ops : List (JOp α)) (k : String) :
    ∀ cur, (∀ op ∈ ops, op.key ≠ k) → jfinal ops k cur = cur := by
  induction ops with
  | nil => intro cur _; rfl
  | cons op rest ih =>
    intro cur h
    rw [jfinal_cons, JOp.step_not_key _ _ _ (h op (List.mem_cons_self _ _))]
    exact ih cur (fun o ho => h o (List.mem_cons_of_mem _ ho))

theorem jfinal_isSome {α : Type} (ops : List (JOp α)) (k : String) :
    ∀ cur : Option α, cur.isSome → (jfinal ops k cur).isSome := by
  induction ops with
  | nil => intro cur h; exact h
  | cons op rest ih =>
    intro cur h
    rw [jfinal_cons]
    apply ih
    cases op with
    | set k' v =>
      by_cases hk : k' = k <;> simp [JOp.step, hk, h]
    | ensure k' v =>
      by_cases hk : k' = k
      · cases cur with
        | some c => simp [JOp.step, hk]
        | none => simp at h
      · simpa [JOp.step, hk] using h

theorem jfinal_fixpoint {α : Type} (ops : List (JOp α)) (k : String) :
    ∀ (cur c : Option α), jfinal ops k cur = c → jfinal ops k c = c := by
  induction ops with
  | nil =>
    intro cur c _
    rfl
  | cons op rest ih =>
    intro cur c h
    rw [jfinal_cons] at h ⊢
    cases op with
    | set k' v =>
      by_cases hk : k' = k
      · subst hk
        have hcur : JOp.step (.set k' v) k' cur = some v := by simp [JOp.step]
        have hc : JOp.step (.set k' v) k' c = some v := by simp [JOp.step]
        rw [hcur] at h
        rw [hc]
        exact h
      · rw [JOp.step_not_key _ _ _ (by simpa [JOp.key] using hk)] at h ⊢
        exact ih cur c h
    | ensure k' v =>
      by_cases hk : k' = k
      · subst hk
        have hsome : c.isSome := by
          rw [← h]
          apply jfinal_isSome
          cases cur <;> simp [JOp.step]
        have hstep : JOp.step (.ensure k' v) k' c = c := by
          cases c with
          | some c₀ => simp [JOp.step]
          | none => simp at hsome
        rw [hstep]
        exact ih _ c h
      · rw [JOp.step_not_key _ _ _ (by simpa [JOp.key] using hk)] at h ⊢
        exact ih cur c h

theorem japplyAll_eq_self {α : Type} (ops : List (JOp α)) (r : List (String × α))
    (hnd : (jkeys r).Nodup) (hkeys : ∀ op ∈ ops, op.key ∈ jkeys r)
    (hfix : ∀ k, jfinal ops k (jget r k) = jget r k) : japplyAll r ops = r := by
  have hk : jkeys (japplyAll r ops) = jkeys r := jkeys_japplyAll_of_mem ops r hkeys
  apply jmap_ext _ _ hk (by rw [hk]; exact hnd)
  intro k
  rw [jget_japplyAll, hfix]

theorem jfilter_idem {α : Type} (P : String → Bool) (m : List (String × α)) :
    jfilter P (jfilter P m) = jfilter P m := by
  simp [jfilter, List.filter_filter]

theorem japplyAll_refilter_self {α : Type} (P : String → Bool) (ops : List (JOp α))
    (m : List (String × α)) (hops : ∀ op ∈ ops, P op.key = true)
    (hnd : (jkeys m).Nodup) :
    japplyAll (jfilter P (japplyAll m ops)) ops = jfilter P (japplyAll m ops) := by
  apply japplyAll_eq_self
  · exact jkeys_jfilter_nodup _ _ (jkeys_japplyAll_nodup _ _ hnd)
  · intro op hop
    rw [mem_jkeys_iff_isSome, jget_jfilter, hops op hop, if_pos rfl]
    have h1 := opkey_mem_japplyAll ops m op hop
    rw [mem_jkeys_iff_isSome] at h1
    exact h1
  · intro k
    by_cases hP : P k
    · rw [jget_jfilter, if_pos hP, jget_japplyAll]
      exact jfinal_fixpoint ops k _ _ rfl
    · rw [jget_jfilter, if_neg hP]
      apply jfinal_of_not_key
      intro op hop hkey
      exact hP (by rw [← hkey]; exact hops op hop)

/-! ## Lemmas about addressed port operations on the node map -/

theorem jkeys_japplyPorts (nodes : List (String × INode)) (e : String × JOp IPort) :
    jkeys (japplyPorts nodes e) = jkeys nodes := by
  cases hm : jget nodes e.1 with
  | none => simp [japplyPorts, hm]
  | some n =>
    have hmem : e.1 ∈ jkeys nodes := by
      rw [mem_jkeys_iff_isSome, hm]; rfl
    simp [japplyPorts, hm, jkeys_jset_of_mem _ _ _ hmem]

theorem jkeys_japplyPortsAll (ops : List (String × JOp IPort)) :
    ∀ nodes, jkeys (japplyPortsAll nodes ops) = jkeys nodes := by
  induction ops with
  | nil => intro nodes; rfl
  | cons e rest ih =>
    intro nodes
    show jkeys (japplyPortsAll (japplyPorts nodes e) rest) = jkeys nodes
    rw [ih, jkeys_japplyPorts]

theorem jskel_jset_of_skel_eq (nodes : List (String × INode)) (k : String)
    (n n' : INode) (h : jget nodes k = some n) (hs : nodeSkel n' = nodeSkel n) :
    jskel (jset nodes k n') = jskel nodes := by
  induction nodes with
  | nil => simp [jget] at h
  | cons hd t ih =>
    obtain ⟨k₀, v₀⟩ := hd
    by_cases hk : k₀ = k
    · subst hk
      simp only [jget_cons, if_pos rfl] at h
      cases h
      simp [jset, jskel, hs]
    · simp only [jget_cons, if_neg hk] at h
      simp [jset, hk, jskel] at ih ⊢
      exact ih h

theorem jskel_japplyPorts (nodes : List (String × INode)) (e : String × JOp IPort) :
    jskel (japplyPorts nodes e) = jskel nodes := by
  cases hm : jget nodes e.1 with
  | none => simp [japplyPorts, hm]
  | some n =>
    simp only [japplyPorts, hm]
    exact jskel_jset_of_skel_eq _ _ _ _ hm rfl

theorem jskel_japplyPortsAll (ops : List (String × JOp IPort)) :
    ∀ nodes, jskel (japplyPortsAll nodes ops) = jskel nodes := by
  induction ops with
  | nil => intro nodes; rfl
  | cons e rest ih =>
    intro nodes
    show jskel (japplyPortsAll (japplyPorts nodes e) rest) = jskel nodes
    rw [ih, jskel_japplyPorts]

theorem jkeys_of_jskel_eq (n₁ n₂ : List (String × INode)) (h : jskel n₁ = jskel n₂) :
    jkeys n₁ = jkeys n₂ := by
  have h1 : jkeys n₁ = (jskel n₁).map Prod.fst := by
    simp [jkeys, jskel, List.map_map]
  have h2 : jkeys n₂ = (jskel n₂).map Prod.fst := by
    simp [jkeys, jskel, List.map_map]
  rw [h1, h2, h]

theorem jget_skel_eq (n₁ : List (String × INode)) :
    ∀ n₂ : List (String × INode), jskel n₁ = jskel n₂ → ∀ name : String,
      (jget n₁ name).map nodeSkel = (jget n₂ name).map nodeSkel := by
  induction n₁ with
  | nil =>
    intro n₂ h name
    cases n₂ with
    | nil => rfl
    | cons hd t => simp [jskel] at h
  | cons hd t ih =>
    intro n₂ h name
    obtain ⟨k₀, a⟩ := hd
    cases n₂ with
    | nil => simp [jskel] at h
    | cons hd₂ t₂ =>
      obtain ⟨k₂, b⟩ := hd₂
      simp only [jskel, List.map_cons, List.cons.injEq, Prod.mk.injEq] at h
      obtain ⟨⟨hkeq, hskel⟩, ht⟩ := h
      subst hkeq
      by_cases hk : k₀ = name
      · simp [jget_cons, hk, hskel]
      · simp only [jget_cons, if_neg hk]
        exact ih t₂ (by simpa [jskel] using ht) name

theorem japplyPortsAll_append (nodes : List (String × INode))
    (ops₁ ops₂ : List (String × JOp IPort)) :
    japplyPortsAll nodes (ops₁ ++ ops₂) = japplyPortsAll (japplyPortsAll nodes ops₁) ops₂ := by
  simp [japplyPortsAll, List.foldl_append]

theorem popsAt_cons (e : String × JOp IPort) (ops : List (String × JOp IPort))
    (name : String) :
    popsAt (e :: ops) name =
      if e.1 = name then e.2 :: popsAt ops name else popsAt ops name := by
  by_cases h : e.1 = name <;> simp [popsAt, List.filter_cons, h]

theorem popsAt_append (ops₁ ops₂ : List (String × JOp IPort)) (name : String) :
    popsAt (ops₁ ++ ops₂) name = popsAt ops₁ name ++ popsAt ops₂ name := by
  simp [popsAt, List.filter_append]

theorem jget_japplyPortsAll (ops : List (String × JOp IPort)) :
    ∀ (nodes : List (String × INode)) (name : String),
      jget (japplyPortsAll nodes ops) name =
        (jget nodes name).map (fun n => { n with ports := japplyAll n.ports (popsAt ops name) }) := by
  induction ops with
  | nil =>
    intro nodes name
    cases h : jget nodes name with
    | none =>
      show jget nodes name = _
      rw [h]
      rfl
    | some n =>
      show jget nodes name = _
      rw [h]
      rfl
  | cons e rest ih =>
    intro nodes name
    obtain ⟨name₀, op₀⟩ := e
    have hstep : japplyPortsAll nodes ((name₀, op₀) :: rest) =
        japplyPortsAll (japplyPorts nodes (name₀, op₀)) rest := rfl
    rw [hstep, ih, popsAt_cons]
    by_cases hn : name₀ = name
    · subst hn
      cases hm : jget nodes name₀ with
      | none => simp [japplyPorts, hm]
      | some n =>
        simp only [japplyPorts, hm, if_pos rfl]
        rw [jget_jset_self]
        simp [japplyAll_cons]
    · cases hm : jget nodes name₀ with
      | none => simp [japplyPorts, hm, if_neg hn]
      | some n =>
        simp only [japplyPorts, hm, if_neg hn]
        rw [jget_jset_ne _ _ _ _ hn]

/-! ## The channel pass reads only node skeletons -/

theorem chanPortOps_congr (n₁ n₂ : List (String × INode))
    (pubkeys : List (String × String)) (fromName : String)
    (chan : LightningNodeChannel) (h : jskel n₁ = jskel n₂) :
    chanPortOps n₁ pubkeys fromName chan = chanPortOps n₂ pubkeys fromName chan := by
  unfold chanPortOps
  cases hpk : jget pubkeys chan.pubkey with
  | none => rfl
  | some toName =>
    have hfrom := jget_skel_eq n₁ n₂ h fromName
    have hto := jget_skel_eq n₁ n₂ h toName
    cases h₁ : jget n₁ fromName with
    | none =>
      cases h₂ : jget n₂ fromName with
      | none => simp [h₁, h₂]
      | some b => rw [h₁, h₂] at hfrom; simp at hfrom
    | some a =>
      cases h₂ : jget n₂ fromName with
      | none => rw [h₁, h₂] at hfrom; simp at hfrom
      | some b =>
        rw [h₁, h₂] at hfrom
        cases h₃ : jget n₁ toName with
        | none =>
          cases h₄ : jget n₂ toName with
          | none => simp [h₁, h₂, h₃, h₄]
          | some d => rw [h₃, h₄] at hto; simp at hto
        | some c =>
          cases h₄ : jget n₂ toName with
          | none => rw [h₃, h₄] at hto; simp at hto
          | some d =>
            rw [h₃, h₄] at hto
            simp only [Option.map_some', Option.some.injEq, nodeSkel,
              Prod.mk.injEq] at hfrom hto
            simp [h₁, h₂, h₃, h₄, hfrom.1, hfrom.2, hto.1, hto.2]

theorem chanOpsList_congr (n₁ n₂ : List (String × INode))
    (pubkeys : List (String × String)) (fromName : String)
    (cs : List LightningNodeChannel) (h : jskel n₁ = jskel n₂) :
    chanOpsList n₁ pubkeys fromName cs = chanOpsList n₂ pubkeys fromName cs := by
  induction cs with
  | nil => rfl
  | cons c rest ih =>
    show (chanPortOps n₁ pubkeys fromName c).bind _ =
      (chanPortOps n₂ pubkeys fromName c).bind _
    rw [chanPortOps_congr n₁ n₂ pubkeys fromName c h]
    cases chanPortOps n₂ pubkeys fromName c with
    | none => rfl
    | some pl => simp only [Option.some_bind]; rw [ih]

theorem jget_isSome_of_skel_eq (n₁ n₂ : List (String × INode))
    (h : jskel n₁ = jskel n₂) (name : String) :
    (jget n₁ name).isSome = (jget n₂ name).isSome := by
  have hs := jget_skel_eq n₁ n₂ h name
  cases h₁ : jget n₁ name <;> cases h₂ : jget n₂ name <;>
    rw [h₁, h₂] at hs <;> simp_all

theorem entryOps_congr (n₁ n₂ : List (String × INode))
    (pubkeys : List (String × String)) (entry : String × LightningNodeData)
    (h : jskel n₁ = jskel n₂) :
    entryOps n₁ pubkeys entry = entryOps n₂ pubkeys entry := by
  unfold entryOps
  cases entry.2.channels with
  | none => rfl
  | some channels =>
    dsimp only
    rw [chanOpsList_congr n₁ n₂ pubkeys entry.1 _ h]
    cases chanOpsList n₂ pubkeys entry.1
        (channels.filter (fun c => truthyName (jget pubkeys c.pubkey))) with
    | none => rfl
    | some pl =>
      have := jget_isSome_of_skel_eq n₁ n₂ h entry.1
      cases h₁ : jget n₁ entry.1 <;> cases h₂ : jget n₂ entry.1 <;>
        rw [h₁, h₂] at this <;> simp_all

theorem allOps_congr (n₁ n₂ : List (String × INode))
    (pubkeys : List (String × String)) (nd : List (String × LightningNodeData))
    (h : jskel n₁ = jskel n₂) :
    allOps n₁ pubkeys nd = allOps n₂ pubkeys nd := by
  induction nd with
  | nil => rfl
  | cons e rest ih =>
    show (entryOps n₁ pubkeys e).bind _ = (entryOps n₂ pubkeys e).bind _
    rw [entryOps_congr n₁ n₂ pubkeys e h]
    cases entryOps n₂ pubkeys e with
    | none => rfl
    | some pli => simp only [Option.some_bind]; rw [ih]

/-! ## The operation keys of the channel pass are its keep-ids -/

theorem chanPortOps_keys (nodes : List (String × INode))
    (pubkeys : List (String × String)) (fromName : String)
    (chan : LightningNodeChannel) (pops : List (String × JOp IPort))
    (lop : JOp ILink) (h : chanPortOps nodes pubkeys fromName chan = some (pops, lop)) :
    lop.key = chan.uniqueId ∧ ∀ q ∈ pops, (q.2 : JOp IPort).key = chan.uniqueId := by
  unfold chanPortOps at h
  cases hpk : jget pubkeys chan.pubkey with
  | none => rw [hpk] at h; simp at h
  | some toName =>
    rw [hpk] at h
    simp only [Option.bind_eq_bind, Option.some_bind] at h
    cases h₁ : jget nodes fromName with
    | none => rw [h₁] at h; simp at h
    | some a =>
      rw [h₁] at h
      simp only [Option.bind_eq_bind, Option.some_bind] at h
      cases h₂ : jget nodes toName with
      | none => rw [h₂] at h; simp at h
      | some b =>
        rw [h₂] at h
        simp only [Option.some_bind, Option.pure_def, Option.some.injEq,
          Prod.mk.injEq] at h
        obtain ⟨hp, hl⟩ := h
        constructor
        · rw [← hl]; rfl
        · intro q hq
          rw [← hp] at hq
          rcases List.mem_cons.mp hq with hq | hq
          · subst hq; rfl
          · rcases List.mem_cons.mp hq with hq | hq
            · subst hq; rfl
            · simp at hq

theorem chanOpsList_keys (nodes : List (String × INode))
    (pubkeys : List (String × String)) (fromName : String)
    (cs : List LightningNodeChannel) :
    ∀ pops lops, chanOpsList nodes pubkeys fromName cs = some (pops, lops) →
      (∀ op ∈ lops, (op : JOp ILink).key ∈ cs.map (fun c => c.uniqueId)) ∧
      (∀ q ∈ pops, (q.2 : JOp IPort).key ∈ cs.map (fun c => c.uniqueId)) := by
  induction cs with
  | nil =>
    intro pops lops h
    have h' : some (([] : List (String × JOp IPort)), ([] : List (JOp ILink))) =
        some (pops, lops) := h
    injection h' with h''
    rw [Prod.mk.injEq] at h''
    obtain ⟨hp, hl⟩ := h''
    subst hp; subst hl
    simp
  | cons c rest ih =>
    intro pops lops h
    rw [show chanOpsList nodes pubkeys fromName (c :: rest) =
        (chanPortOps nodes pubkeys fromName c).bind (fun pl =>
          (chanOpsList nodes pubkeys fromName rest).bind (fun pr =>
            some (pl.1 ++ pr.1, pl.2 :: pr.2))) from rfl] at h
    cases hc : chanPortOps nodes pubkeys fromName c with
    | none => rw [hc] at h; simp at h
    | some pl =>
      rw [hc] at h
      obtain ⟨p₁, l₁⟩ := pl
      cases hr : chanOpsList nodes pubkeys fromName rest with
      | none => rw [hr] at h; simp at h
      | some pr =>
        rw [hr] at h
        obtain ⟨p₂, l₂⟩ := pr
        simp only [Option.some_bind, Option.pure_def, Option.some.injEq,
          Prod.mk.injEq] at h
        obtain ⟨hp, hl⟩ := h
        subst hp; subst hl
        have hck := chanPortOps_keys nodes pubkeys fromName c p₁ l₁ hc
        have hik := ih p₂ l₂ hr
        constructor
        · intro op hop
          rcases List.mem_cons.mp hop with hop | hop
          · subst hop; simp [hck.1]
          · simp only [List.map_cons, List.mem_cons]
            exact Or.inr (hik.1 op hop)
        · intro q hq
          rcases List.mem_append.mp hq with hq | hq
          · simp [hck.2 q hq]
          · simp only [List.map_cons, List.mem_cons]
            exact Or.inr (hik.2 q hq)

theorem entryOps_eq_none (nodes : List (String × INode))
    (pubkeys : List (String × String)) (entry : String × LightningNodeData)
    (h : entry.2.channels = none) : entryOps nodes pubkeys entry = some ([], [], []) := by
  unfold entryOps
  rw [h]

theorem entryOps_eq_some (nodes : List (String × INode))
    (pubkeys : List (String × String)) (entry : String × LightningNodeData)
    (channels : List LightningNodeChannel) (h : entry.2.channels = some channels) :
    entryOps nodes pubkeys entry =
      (chanOpsList nodes pubkeys entry.1
          (channels.filter (fun c => truthyName (jget pubkeys c.pubkey)))).bind
        (fun pl => (jget nodes entry.1).bind (fun _ =>
          some (pl.1, pl.2,
            (channels.filter (fun c => truthyName (jget pubkeys c.pubkey))).map
              (fun c => c.uniqueId)))) := by
  unfold entryOps
  rw [h]
  cases hc : chanOpsList nodes pubkeys entry.1
      (channels.filter (fun c => truthyName (jget pubkeys c.pubkey))) with
  | none => simp [hc]
  | some pl =>
    cases hg : jget nodes entry.1 with
    | none => simp [hc, hg]
    | some n => simp [hc, hg]

theorem allOps_cons_eq (nodes : List (String × INode))
    (pubkeys : List (String × String)) (e : String × LightningNodeData)
    (rest : List (String × LightningNodeData)) :
    allOps nodes pubkeys (e :: rest) =
      (entryOps nodes pubkeys e).bind (fun a =>
        (allOps nodes pubkeys rest).bind (fun b =>
          some (a.1 ++ b.1, a.2.1 ++ b.2.1, a.2.2 ++ b.2.2))) := by
  cases he : entryOps nodes pubkeys e with
  | none => simp [allOps, he]
  | some a =>
    cases hr : allOps nodes pubkeys rest with
    | none => simp [allOps, he, hr]
    | some b => simp [allOps, he, hr]

theorem entryOps_keys (nodes : List (String × INode))
    (pubkeys : List (String × String)) (entry : String × LightningNodeData)
    (pops : List (String × JOp IPort)) (lops : List (JOp ILink)) (ids : List String)
    (h : entryOps nodes pubkeys entry = some (pops, lops, ids)) :
    (∀ op ∈ lops, (op : JOp ILink).key ∈ ids) ∧
    (∀ q ∈ pops, (q.2 : JOp IPort).key ∈ ids) := by
  cases hch : entry.2.channels with
  | none =>
    rw [entryOps_eq_none nodes pubkeys entry hch] at h
    injection h with h'
    rw [Prod.mk.injEq] at h'
    obtain ⟨hp, h''⟩ := h'
    rw [Prod.mk.injEq] at h''
    obtain ⟨hl, hi⟩ := h''
    subst hp; subst hl; subst hi
    simp
  | some channels =>
    rw [entryOps_eq_some nodes pubkeys entry channels hch] at h
    cases hc : chanOpsList nodes pubkeys entry.1
        (channels.filter (fun c => truthyName (jget pubkeys c.pubkey))) with
    | none => rw [hc] at h; simp at h
    | some pl =>
      rw [hc] at h
      cases hg : jget nodes entry.1 with
      | none => rw [hg] at h; simp at h
      | some n =>
        rw [hg] at h
        simp only [Option.some_bind, Option.some.injEq, Prod.mk.injEq] at h
        obtain ⟨hp, hl, hi⟩ := h
        obtain ⟨p₁, l₁⟩ := pl
        have hck := chanOpsList_keys nodes pubkeys entry.1 _ p₁ l₁ hc
        subst hp; subst hl; subst hi
        exact ⟨hck.1, hck.2⟩

theorem allOps_keys (nodes : List (String × INode))
    (pubkeys : List (String × String)) (nd : List (String × LightningNodeData)) :
    ∀ pops lops ids, allOps nodes pubkeys nd = some (pops, lops, ids) →
      (∀ op ∈ lops, (op : JOp ILink).key ∈ ids) ∧
      (∀ q ∈ pops, (q.2 : JOp IPort).key ∈ ids) := by
  induction nd with
  | nil =>
    intro pops lops ids h
    have h' : some (([] : List (String × JOp IPort)), ([] : List (JOp ILink)),
        ([] : List String)) = some (pops, lops, ids) := h
    injection h' with h''
    rw [Prod.mk.injEq] at h''
    obtain ⟨hp, h''⟩ := h''
    rw [Prod.mk.injEq] at h''
    obtain ⟨hl, hi⟩ := h''
    subst hp; subst hl; subst hi
    simp
  | cons e rest ih =>
    intro pops lops ids h
    rw [allOps_cons_eq] at h
    cases he : entryOps nodes pubkeys e with
    | none => rw [he] at h; simp at h
    | some a =>
      rw [he] at h
      cases hr : allOps nodes pubkeys rest with
      | none => rw [hr] at h; simp at h
      | some b =>
        rw [hr] at h
        simp only [Option.some_bind, Option.some.injEq, Prod.mk.injEq] at h
        obtain ⟨hp, hl, hi⟩ := h
        obtain ⟨p₁, l₁, i₁⟩ := a
        obtain ⟨p₂, l₂, i₂⟩ := b
        have h₁ := entryOps_keys nodes pubkeys e p₁ l₁ i₁ he
        have h₂ := ih p₂ l₂ i₂ hr
        subst hp; subst hl; subst hi
        constructor
        · intro op hop
          rcases List.mem_append.mp hop with hop | hop
          · exact List.mem_append_left _ (h₁.1 op hop)
          · exact List.mem_append_right _ (h₂.1 op hop)
        · intro q hq
          rcases List.mem_append.mp hq with hq | hq
          · exact List.mem_append_left _ (h₁.2 q hq)
          · exact List.mem_append_right _ (h₂.2 q hq)

theorem allOps_ids (nodes : List (String × INode))
    (pubkeys : List (String × String)) (nd : List (String × LightningNodeData)) :
    ∀ pops lops ids, allOps nodes pubkeys nd = some (pops, lops, ids) →
      ids = liveChannelIds pubkeys nd := by
  induction nd with
  | nil =>
    intro pops lops ids h
    have h' : some (([] : List (String × JOp IPort)), ([] : List (JOp ILink)),
        ([] : List String)) = some (pops, lops, ids) := h
    injection h' with h''
    rw [Prod.mk.injEq] at h''
    obtain ⟨_, h''⟩ := h''
    rw [Prod.mk.injEq] at h''
    exact h''.2.symm
  | cons e rest ih =>
    intro pops lops ids h
    rw [allOps_cons_eq] at h
    cases he : entryOps nodes pubkeys e with
    | none => rw [he] at h; simp at h
    | some a =>
      rw [he] at h
      cases hr : allOps nodes pubkeys rest with
      | none => rw [hr] at h; simp at h
      | some b =>
        rw [hr] at h
        simp only [Option.some_bind, Option.some.injEq, Prod.mk.injEq] at h
        obtain ⟨_, _, hi⟩ := h
        obtain ⟨p₁, l₁, i₁⟩ := a
        obtain ⟨p₂, l₂, i₂⟩ := b
        have hrec := ih p₂ l₂ i₂ hr
        have hentry : i₁ = match e.2.channels with
          | none => []
          | some channels =>
            (channels.filter (fun c => truthyName (jget pubkeys c.pubkey))).map
              (fun c => c.uniqueId) := by
          cases hch : e.2.channels with
          | none =>
            rw [entryOps_eq_none nodes pubkeys e hch] at he
            injection he with h'
            rw [Prod.mk.injEq] at h'
            obtain ⟨_, h''⟩ := h'
            rw [Prod.mk.injEq] at h''
            exact h''.2.symm
          | some channels =>
            rw [entryOps_eq_some nodes pubkeys e channels hch] at he
            cases hc : chanOpsList nodes pubkeys e.1
                (channels.filter (fun c => truthyName (jget pubkeys c.pubkey))) with
            | none => rw [hc] at he; simp at he
            | some pl =>
              rw [hc] at he
              cases hg : jget nodes e.1 with
              | none => rw [hg] at he; simp at he
              | some n =>
                rw [hg] at he
                simp only [Option.some_bind, Option.some.injEq, Prod.mk.injEq] at he
                exact he.2.2.symm
        rw [← hi, hrec, hentry]
        rfl

/-! ## Characterisation of the channel pass as operation application -/

theorem updateLinksAndPorts_char (chan : LightningNodeChannel)
    (pubkeys : List (String × String)) (nodes : List (String × INode))
    (fromName : String) (links : List (String × ILink)) :
    updateLinksAndPorts chan pubkeys nodes fromName links =
      match chanPortOps nodes pubkeys fromName chan with
      | some pl => some (japplyPortsAll nodes pl.1, japply links pl.2)
      | none => none := by
  unfold updateLinksAndPorts chanPortOps
  cases hpk : jget pubkeys chan.pubkey with
  | none => rfl
  | some toName =>
    simp only [Option.bind_eq_bind, Option.some_bind]
    cases h₁ : jget nodes fromName with
    | none => rfl
    | some a =>
      simp only [Option.some_bind]
      cases h₂ : jget nodes toName with
      | none => rfl
      | some b =>
        simp only [Option.some_bind]
        by_cases hft : fromName = toName
        · subst hft
          have hab : a = b := by
            rw [h₁] at h₂
            injection h₂
          subst hab
          rw [jget_jset_self]
          simp only [Option.some_bind]
          simp [japplyPortsAll, japplyPorts, japply, h₁, jget_jset_self]
        · rw [jget_jset_ne _ _ _ _ hft, h₂]
          simp only [Option.some_bind]
          simp [japplyPortsAll, japplyPorts, japply, h₁, h₂,
            jget_jset_ne _ _ _ _ hft, jget_jset_self]

theorem chartChannelFold_char (pubkeys : List (String × String)) (fromName : String)
    (cs : List LightningNodeChannel) :
    ∀ (nodes : List (String × INode)) (links : List (String × ILink)) (keep : List String),
      chartChannelFold pubkeys fromName ((nodes, links), keep) cs =
        match chanOpsList nodes pubkeys fromName cs with
        | some pl => some ((japplyPortsAll nodes pl.1, japplyAll links pl.2),
            keep ++ cs.map (fun c => c.uniqueId))
        | none => none := by
  induction cs with
  | nil =>
    intro nodes links keep
    simp [chartChannelFold, chanOpsList, japplyAll, japplyPortsAll]
  | cons c rest ih =>
    intro nodes links keep
    have hstep : chartChannelFold pubkeys fromName ((nodes, links), keep) (c :: rest) =
        (updateLinksAndPorts c pubkeys nodes fromName links).bind (fun nl =>
          chartChannelFold pubkeys fromName ((nl.1, nl.2), keep ++ [c.uniqueId]) rest) := by
      cases hu : updateLinksAndPorts c pubkeys nodes fromName links with
      | none => simp [chartChannelFold, List.foldlM_cons, hu]
      | some nl => simp [chartChannelFold, List.foldlM_cons, hu]
    rw [hstep, updateLinksAndPorts_char]
    rw [show chanOpsList nodes pubkeys fromName (c :: rest) =
        (chanPortOps nodes pubkeys fromName c).bind (fun pl =>
          (chanOpsList nodes pubkeys fromName rest).bind (fun pr =>
            some (pl.1 ++ pr.1, pl.2 :: pr.2))) from rfl]
    cases hc : chanPortOps nodes pubkeys fromName c with
    | none => rfl
    | some pl =>
      simp only [Option.some_bind]
      rw [ih]
      rw [chanOpsList_congr _ nodes pubkeys fromName rest (jskel_japplyPortsAll pl.1 nodes)]
      cases hr : chanOpsList nodes pubkeys fromName rest with
      | none => rfl
      | some pr =>
        simp only [Option.some_bind]
        rw [japplyPortsAll_append]
        simp [japplyAll_cons, List.append_assoc]

theorem chartEntryPass_char (pubkeys : List (String × String))
    (nodes : List (String × INode)) (links : List (String × ILink))
    (keep : List String) (entry : String × LightningNodeData) :
    chartEntryPass pubkeys ((nodes, links), keep) entry =
      match entryOps nodes pubkeys entry with
      | some pli => some ((japplyPortsAll nodes pli.1, japplyAll links pli.2.1),
          keep ++ pli.2.2)
      | none => none := by
  cases hch : entry.2.channels with
  | none =>
    unfold chartEntryPass
    rw [hch, entryOps_eq_none nodes pubkeys entry hch]
    simp [japplyAll, japplyPortsAll]
  | some channels =>
    unfold chartEntryPass
    rw [hch, entryOps_eq_some nodes pubkeys entry channels hch]
    dsimp only
    rw [chartChannelFold_char]
    cases hc : chanOpsList nodes pubkeys entry.1
        (channels.filter (fun c => truthyName (jget pubkeys c.pubkey))) with
    | none => rfl
    | some pl =>
      simp only [Option.some_bind]
      have hkeys : jkeys (japplyPortsAll nodes pl.1) = jkeys nodes :=
        jkeys_japplyPortsAll _ _
      cases hg : jget nodes entry.1 with
      | none =>
        cases hg' : jget (japplyPortsAll nodes pl.1) entry.1 with
        | none => simp [hg, hg']
        | some n' =>
          exfalso
          have h1 : entry.1 ∈ jkeys (japplyPortsAll nodes pl.1) :=
            (mem_jkeys_iff_isSome _ _).mpr (by simp [hg'])
          rw [hkeys, mem_jkeys_iff_isSome, hg] at h1
          simp at h1
      | some n =>
        cases hg' : jget (japplyPortsAll nodes pl.1) entry.1 with
        | none =>
          exfalso
          have h1 : entry.1 ∈ jkeys nodes :=
            (mem_jkeys_iff_isSome _ _).mpr (by simp [hg])
          rw [← hkeys, mem_jkeys_iff_isSome, hg'] at h1
          simp at h1
        | some n' =>
          simp only [Option.bind_eq_bind, Option.some_bind, hg']
          rw [jset_self _ _ _ hg']

theorem chartNodesPass_char (pubkeys : List (String × String))
    (nd : List (String × LightningNodeData)) :
    ∀ (nodes : List (String × INode)) (links : List (String × ILink)) (keep : List String),
      nd.foldlM (chartEntryPass pubkeys) ((nodes, links), keep) =
        match allOps nodes pubkeys nd with
        | some pli => some ((japplyPortsAll nodes pli.1, japplyAll links pli.2.1),
            keep ++ pli.2.2)
        | none => none := by
  induction nd with
  | nil =>
    intro nodes links keep
    simp [allOps, japplyAll, japplyPortsAll]
  | cons e rest ih =>
    intro nodes links keep
    rw [List.foldlM_cons, chartEntryPass_char, allOps_cons_eq]
    cases he : entryOps nodes pubkeys e with
    | none => rfl
    | some a =>
      simp only [Option.bind_eq_bind, Option.some_bind]
      rw [ih]
      rw [allOps_congr _ nodes pubkeys rest (jskel_japplyPortsAll a.1 nodes)]
      cases hr : allOps nodes pubkeys rest with
      | none => rfl
      | some b =>
        simp only [Option.some_bind]
        rw [japplyPortsAll_append]
        simp [japplyAll_append, List.append_assoc]

/-! ## Characterisation of the defensive re-insertion passes -/

theorem ensureBackendLinks_char (network : Network) :
    ∀ (links : List (String × ILink)) (keep : List String),
      ensureBackendLinks network (links, keep) =
        (japplyAll links (lnEnsureOps network), keep ++ lnKeepIds network) := by
  unfold ensureBackendLinks lnEnsureOps lnKeepIds
  generalize network.nodes.lightning = lns
  induction lns with
  | nil => intro links keep; simp [japplyAll]
  | cons ln rest ih =>
    intro links keep
    simp only [List.foldl_cons, List.map_cons]
    rw [japplyAll_cons, ih]
    cases hg : jget links (ln.name ++ "-" ++ ln.backendName) with
    | none => simp [japply, hg, lnBackendLinkOf, List.append_assoc]
    | some l => simp [japply, hg, lnBackendLinkOf, List.append_assoc]

theorem ensureTaroLinks_char (network : Network) :
    ∀ (links : List (String × ILink)) (keep : List String),
      ensureTaroLinks network (links, keep) =
        (japplyAll links (taroEnsureOps network), keep ++ taroKeepIds network) := by
  unfold ensureTaroLinks taroEnsureOps taroKeepIds
  generalize network.nodes.taro = ts
  induction ts with
  | nil => intro links keep; simp [japplyAll]
  | cons taro rest ih =>
    intro links keep
    simp only [List.foldl_cons, List.map_cons]
    rw [japplyAll_cons, ih]
    cases hg : jget links (taro.name ++ "-" ++ taro.lndName) with
    | none => simp [japply, hg, taroLinkOf, List.append_assoc]
    | some l => simp [japply, hg, taroLinkOf, List.append_assoc]

theorem ensureBitcoinLinks_char (network : Network) :
    ∀ (links : List (String × ILink)) (keep : List String),
      ensureBitcoinLinks network (links, keep) =
        (japplyAll links (btcEnsureOps network), keep ++ btcKeepIds network) := by
  unfold ensureBitcoinLinks btcEnsureOps btcKeepIds
  generalize network.nodes.bitcoin.enum = l
  induction l with
  | nil => intro links keep; simp [japplyAll]
  | cons ib rest ih =>
    intro links keep
    obtain ⟨i, btc⟩ := ib
    by_cases hi : i = 0
    · subst hi
      simp only [List.foldl_cons, List.filterMap_cons]
      rw [show btcContrib (0, btc) = none from by simp [btcContrib]]
      simpa using ih links keep
    · cases hp : btc.peers.head? with
      | none =>
        simp only [List.foldl_cons, List.filterMap_cons]
        rw [show btcContrib (i, btc) = none from by simp [btcContrib, hi, hp]]
        simp only [if_neg hi, hp]
        simpa using ih links keep
      | some peer =>
        by_cases hpe : peer = ""
        · subst hpe
          simp only [List.foldl_cons, List.filterMap_cons]
          rw [show btcContrib (i, btc) = none from by simp [btcContrib, hi, hp]]
          simp only [if_neg hi, hp, if_pos rfl]
          simpa using ih links keep
        · simp only [List.foldl_cons, List.filterMap_cons]
          rw [show btcContrib (i, btc) = some (peer ++ "-" ++ btc.name,
              { id := peer ++ "-" ++ btc.name
                fromEnd := { nodeId := peer, portId := "peer-right" }
                toEnd := { nodeId := btc.name, portId := "peer-left" }
                properties := .basic "btcpeer" }) from by simp [btcContrib, hi, hp, hpe]]
          simp only [if_neg hi, hp, if_neg hpe, List.map_cons]
          rw [japplyAll_cons, ih]
          cases hg : jget links (peer ++ "-" ++ btc.name) with
          | none => simp [japply, hg, List.append_assoc]
          | some lx => simp [japply, hg, List.append_assoc]

/-- The whole reconciliation pass, characterised: the channel pass applies its
operations, the defensive passes apply their ensure operations, and the
pruned, resized result is assembled. -/
theorem updateChartFromNodes_eq (chart : IChart) (network : Network)
    (nodesData : LightningNodeMapping) :
    updateChartFromNodes chart network nodesData =
      match allOps chart.nodes (buildPubkeys nodesData) nodesData with
      | none => none
      | some pli =>
        match resizeNodes nodesData
            (prunePorts
              (pli.2.2 ++ lnKeepIds network ++ btcKeepIds network ++ taroKeepIds network)
              (japplyPortsAll chart.nodes pli.1)) with
        | none => none
        | some nodes2 =>
          some { chart with
                  nodes := nodes2
                  links := pruneLinks
                    (pli.2.2 ++ lnKeepIds network ++ btcKeepIds network ++ taroKeepIds network)
                    (japplyAll chart.links (pli.2.1 ++ ensureOpsOf network))
                  selected := normalizeSelected chart.selected } := by
  unfold updateChartFromNodes
  dsimp only
  rw [chartNodesPass_char]
  cases hall : allOps chart.nodes (buildPubkeys nodesData) nodesData with
  | none => rfl
  | some pli =>
    simp only [Option.bind_eq_bind, Option.some_bind]
    rw [ensureBackendLinks_char, ensureBitcoinLinks_char, ensureTaroLinks_char]
    rw [← japplyAll_append, ← japplyAll_append, ← japplyAll_append]
    simp only [List.nil_append, List.append_assoc, ensureOpsOf]
    cases hres : resizeNodes nodesData
        (prunePorts
          (pli.2.2 ++ (lnKeepIds network ++ (btcKeepIds network ++ taroKeepIds network)))
          (japplyPortsAll chart.nodes pli.1)) with
    | none => simp [hres, List.append_assoc]
    | some nodes2 => simp [hres, List.append_assoc]

/-! ## Lemmas about pruning, resizing and selection -/

theorem mem_of_jget {α : Type} (m : List (String × α)) (k : String) (v : α)
    (h : jget m k = some v) : (k, v) ∈ m := by
  induction m with
  | nil => simp [jget] at h
  | cons hd t ih =>
    obtain ⟨k₀, v₀⟩ := hd
    by_cases hk : k₀ = k
    · subst hk
      simp only [jget_cons, if_pos rfl] at h
      cases h
      exact List.mem_cons_self _ _
    · simp only [jget_cons, if_neg hk] at h
      exact List.mem_cons_of_mem _ (ih h)

theorem jskel_prunePorts (keep : List String) (nodes : List (String × INode)) :
    jskel (prunePorts keep nodes) = jskel nodes := by
  simp only [jskel, prunePorts, List.map_map]
  apply List.map_congr_left
  intro kv _
  rfl

theorem jkeys_prunePorts (keep : List String) (nodes : List (String × INode)) :
    jkeys (prunePorts keep nodes) = jkeys nodes :=
  jkeys_of_jskel_eq _ _ (jskel_prunePorts keep nodes)

theorem jget_prunePorts (keep : List String) (nodes : List (String × INode))
    (name : String) :
    jget (prunePorts keep nodes) name =
      (jget nodes name).map (fun n =>
        { n with ports := (jfilter
            (fun portId => specialPortIds.contains portId || keep.contains portId)
            n.ports) }) := by
  induction nodes with
  | nil => rfl
  | cons hd t ih =>
    obtain ⟨k₀, n₀⟩ := hd
    by_cases hk : k₀ = name
    · simp [prunePorts, jget_cons, hk]
    · simp only [prunePorts, List.map_cons, jget_cons, if_neg hk]
      simpa [prunePorts] using ih

theorem updateNodeSize_ports (n : INode) : (updateNodeSize n).ports = n.ports := rfl

theorem nodeSkel_updateNodeSize (n : INode) : nodeSkel (updateNodeSize n) = nodeSkel n := rfl

theorem updateNodeSize_idem (n : INode) :
    updateNodeSize (updateNodeSize n) = updateNodeSize n := by
  simp [updateNodeSize]

theorem resizeNodes_nil (m : List (String × INode)) : resizeNodes [] m = some m := rfl

theorem resizeNodes_cons_eq (e : String × LightningNodeData)
    (nd : List (String × LightningNodeData)) (m : List (String × INode)) :
    resizeNodes (e :: nd) m =
      (jget m e.1).bind (fun n => resizeNodes nd (jset m e.1 (updateNodeSize n))) := by
  cases hg : jget m e.1 with
  | none => simp [resizeNodes, List.foldlM_cons, hg]
  | some n => simp [resizeNodes, List.foldlM_cons, hg]

theorem resizeNodes_keys (nd : List (String × LightningNodeData)) :
    ∀ m m', resizeNodes nd m = some m' → jkeys m' = jkeys m := by
  induction nd with
  | nil =>
    intro m m' h
    rw [resizeNodes_nil] at h
    injection h with h'
    rw [h']
  | cons e rest ih =>
    intro m m' h
    rw [resizeNodes_cons_eq] at h
    cases hg : jget m e.1 with
    | none => rw [hg] at h; simp at h
    | some n =>
      rw [hg] at h
      simp only [Option.some_bind] at h
      have hmem : e.1 ∈ jkeys m := by rw [mem_jkeys_iff_isSome, hg]; rfl
      rw [ih _ _ h, jkeys_jset_of_mem _ _ _ hmem]

theorem jskel_resizeNodes (nd : List (String × LightningNodeData)) :
    ∀ m m', resizeNodes nd m = some m' → jskel m' = jskel m := by
  induction nd with
  | nil =>
    intro m m' h
    rw [resizeNodes_nil] at h
    injection h with h'
    rw [h']
  | cons e rest ih =>
    intro m m' h
    rw [resizeNodes_cons_eq] at h
    cases hg : jget m e.1 with
    | none => rw [hg] at h; simp at h
    | some n =>
      rw [hg] at h
      simp only [Option.some_bind] at h
      rw [ih _ _ h, jskel_jset_of_skel_eq m e.1 n _ hg (nodeSkel_updateNodeSize n)]

theorem jget_resizeNodes_of_not_mem (nd : List (String × LightningNodeData)) :
    ∀ m m' name, resizeNodes nd m = some m' → name ∉ jkeys nd →
      jget m' name = jget m name := by
  induction nd with
  | nil =>
    intro m m' name h _
    rw [resizeNodes_nil] at h
    injection h with h'
    rw [h']
  | cons e rest ih =>
    intro m m' name h hmem
    rw [resizeNodes_cons_eq] at h
    cases hg : jget m e.1 with
    | none => rw [hg] at h; simp at h
    | some n =>
      rw [hg] at h
      simp only [Option.some_bind] at h
      simp only [jkeys, List.map_cons, List.mem_cons] at hmem
      push_neg at hmem
      rw [ih _ _ name h (by simpa [jkeys] using hmem.2),
        jget_jset_ne _ _ _ _ (Ne.symm hmem.1)]

theorem resizeNodes_get_nodup (nd : List (String × LightningNodeData)) :
    (jkeys nd).Nodup → ∀ m m', resizeNodes nd m = some m' →
      ∀ name, jget m' name =
        (jget m name).map (fun n => if name ∈ jkeys nd then updateNodeSize n else n) := by
  induction nd with
  | nil =>
    intro _ m m' h name
    rw [resizeNodes_nil] at h
    injection h with h'
    rw [h']
    cases hx : jget m' name with
    | none => simp
    | some n => simp [jkeys, Option.map_some']
  | cons e rest ih =>
    intro hnd m m' h name
    simp only [jkeys, List.map_cons, List.nodup_cons] at hnd
    rw [resizeNodes_cons_eq] at h
    cases hg : jget m e.1 with
    | none => rw [hg] at h; simp at h
    | some n =>
      rw [hg] at h
      simp only [Option.some_bind] at h
      by_cases hname : e.1 = name
      · subst hname
        rw [jget_resizeNodes_of_not_mem rest _ _ _ h (by simpa [jkeys] using hnd.1),
          jget_jset_self, hg]
        simp [jkeys]
      · rw [ih (by simpa [jkeys] using hnd.2) _ _ h name,
          jget_jset_ne _ _ _ _ hname]
        have hiff : (name ∈ jkeys (e :: rest)) ↔ (name ∈ jkeys rest) := by
          simp only [jkeys, List.map_cons, List.mem_cons]
          constructor
          · rintro (hx | hx)
            · exact absurd hx.symm hname
            · exact hx
          · exact Or.inr
        cases hx : jget m name with
        | none => rfl
        | some n' =>
          simp only [Option.map_some', Option.some.injEq]
          by_cases hmem : name ∈ jkeys rest
          · rw [if_pos hmem, if_pos (hiff.mpr hmem)]
          · rw [if_neg hmem, if_neg (fun hx2 => hmem (hiff.mp hx2))]

theorem resizeNodes_fixed (nd : List (String × LightningNodeData)) :
    (jkeys nd).Nodup → ∀ m m', resizeNodes nd m = some m' →
      resizeNodes nd m' = some m' := by
  induction nd with
  | nil => intro _ m m' _; rfl
  | cons e rest ih =>
    intro hnd m m' h
    simp only [jkeys, List.map_cons, List.nodup_cons] at hnd
    rw [resizeNodes_cons_eq] at h
    cases hg : jget m e.1 with
    | none => rw [hg] at h; simp at h
    | some n =>
      rw [hg] at h
      simp only [Option.some_bind] at h
      have hg' : jget m' e.1 = some (updateNodeSize n) := by
        rw [jget_resizeNodes_of_not_mem rest _ _ _ h (by simpa [jkeys] using hnd.1),
          jget_jset_self]
      rw [resizeNodes_cons_eq, hg']
      simp only [Option.some_bind]
      rw [updateNodeSize_idem, jset_self _ _ _ hg']
      exact ih (by simpa [jkeys] using hnd.2) _ _ h

theorem normalizeSelected_idem (s : ISelected) :
    normalizeSelected (normalizeSelected s) = normalizeSelected s := by
  unfold normalizeSelected
  by_cases h : s.type = some "node" <;> simp [h]

theorem jget_pruneLinks (keep : List String) (links : List (String × ILink))
    (id : String) :
    jget (pruneLinks keep links) id =
      if keep.contains id then jget links id else none :=
  jget_jfilter _ links id

theorem mem_contains (l : List String) (x : String) (h : x ∈ l) :
    l.contains x = true := by
  simpa [List.contains] using h

theorem lnEnsureOps_keys (network : Network) (op : JOp ILink)
    (h : op ∈ lnEnsureOps network) : op.key ∈ lnKeepIds network := by
  unfold lnEnsureOps at h
  unfold lnKeepIds
  obtain ⟨ln, hln, hop⟩ := List.mem_map.mp h
  subst hop
  exact List.mem_map.mpr ⟨ln, hln, rfl⟩

theorem btcEnsureOps_keys (network : Network) (op : JOp ILink)
    (h : op ∈ btcEnsureOps network) : op.key ∈ btcKeepIds network := by
  unfold btcEnsureOps at h
  unfold btcKeepIds
  obtain ⟨p, hp, hop⟩ := List.mem_map.mp h
  subst hop
  exact List.mem_map.mpr ⟨p, hp, rfl⟩

theorem taroEnsureOps_keys (network : Network) (op : JOp ILink)
    (h : op ∈ taroEnsureOps network) : op.key ∈ taroKeepIds network := by
  unfold taroEnsureOps at h
  unfold taroKeepIds
  obtain ⟨taro, ht, hop⟩ := List.mem_map.mp h
  subst hop
  exact List.mem_map.mpr ⟨taro, ht, rfl⟩

theorem popsAt_sub (pops : List (String × JOp IPort)) (name : String)
    (op : JOp IPort) (h : op ∈ popsAt pops name) : ∃ q ∈ pops, q.2 = op := by
  unfold popsAt at h
  obtain ⟨q, hq, hop⟩ := List.mem_map.mp h
  exact ⟨q, List.mem_of_mem_filter hq, hop⟩

/-- Decomposition of a successful updateChartFromNodes run into its phases. -/
theorem updateChartFromNodes_parts (chart : IChart) (network : Network)
    (nodesData : LightningNodeMapping) (out : IChart)
    (h : updateChartFromNodes chart network nodesData = some out) :
    ∃ pops lops ids,
      allOps chart.nodes (buildPubkeys nodesData) nodesData = some (pops, lops, ids) ∧
      resizeNodes nodesData
        (prunePorts (ids ++ lnKeepIds network ++ btcKeepIds network ++ taroKeepIds network)
          (japplyPortsAll chart.nodes pops)) = some out.nodes ∧
      out.links = pruneLinks
        (ids ++ lnKeepIds network ++ btcKeepIds network ++ taroKeepIds network)
        (japplyAll chart.links (lops ++ ensureOpsOf network)) ∧
      out.selected = normalizeSelected chart.selected ∧
      out.offset = chart.offset ∧ out.hovered = chart.hovered ∧
      out.scale = chart.scale := by
  rw [updateChartFromNodes_eq] at h
  cases hall : allOps chart.nodes (buildPubkeys nodesData) nodesData with
  | none => rw [hall] at h; simp at h
  | some pli =>
    rw [hall] at h
    obtain ⟨pops, lops, ids⟩ := pli
    dsimp only at h
    refine ⟨pops, lops, ids, rfl, ?_⟩
    cases hres : resizeNodes nodesData
        (prunePorts (ids ++ lnKeepIds network ++ btcKeepIds network ++ taroKeepIds network)
          (japplyPortsAll chart.nodes pops)) with
    | none => rw [hres] at h; simp at h
    | some nodes2 =>
      rw [hres] at h
      simp only [Option.some.injEq] at h
      rw [← h]
      exact ⟨rfl, rfl, rfl, rfl, rfl, rfl⟩

/-- C1: for every chart, network and live per-node channel data (well-formed
as JavaScript objects: unique keys), a second updateChartFromNodes pass with
identical inputs returns exactly the chart the first pass produced: the
reconciliation adds no duplicate links or ports and changes nothing. -/
theorem updateChartFromNodes_idempotent (chart : IChart) (network : Network)
    (nodesData : LightningNodeMapping) (out : IChart)
    (hwf : WfChart chart) (hwfd : WfMapping nodesData)
    (h : updateChartFromNodes chart network nodesData = some out) :
    updateChartFromNodes out network nodesData = some out := by
  obtain ⟨hnodes_nd, hlinks_nd, hports_nd⟩ := hwf
  obtain ⟨pops, lops, ids, hall, hres, hlinks, hsel, hoff, hhov, hscale⟩ :=
    updateChartFromNodes_parts chart network nodesData out h
  have hkeysOps := allOps_keys chart.nodes (buildPubkeys nodesData) nodesData pops lops ids hall
  -- node skeletons survive the whole pass
  have hskel : jskel out.nodes = jskel chart.nodes := by
    have h1 := jskel_resizeNodes nodesData _ _ hres
    rw [jskel_prunePorts, jskel_japplyPortsAll] at h1
    exact h1
  have hkeys : jkeys out.nodes = jkeys chart.nodes := jkeys_of_jskel_eq _ _ hskel
  -- membership of keep-ids in the keep-list
  have hin_ids : ∀ x ∈ ids,
      x ∈ ids ++ lnKeepIds network ++ btcKeepIds network ++ taroKeepIds network :=
    fun x hx => List.mem_append_left _ (List.mem_append_left _ (List.mem_append_left _ hx))
  -- all link operation keys are kept
  have hlinkops : ∀ op ∈ lops ++ ensureOpsOf network,
      (ids ++ lnKeepIds network ++ btcKeepIds network ++ taroKeepIds network).contains
        (op : JOp ILink).key = true := by
    intro op hop
    apply mem_contains
    rcases List.mem_append.mp hop with hop | hop
    · exact hin_ids _ (hkeysOps.1 op hop)
    · unfold ensureOpsOf at hop
      rcases List.mem_append.mp hop with hop | hop
      · rcases List.mem_append.mp hop with hop | hop
        · exact List.mem_append_left _ (List.mem_append_left _
            (List.mem_append_right _ (lnEnsureOps_keys network op hop)))
        · exact List.mem_append_left _
            (List.mem_append_right _ (btcEnsureOps_keys network op hop))
      · exact List.mem_append_right _ (taroEnsureOps_keys network op hop)
  -- all port operation keys pass the port-pruning predicate
  have hportops : ∀ name, ∀ op ∈ popsAt pops name,
      (fun portId => specialPortIds.contains portId ||
        (ids ++ lnKeepIds network ++ btcKeepIds network ++ taroKeepIds network).contains portId)
        (op : JOp IPort).key = true := by
    intro name op hop
    obtain ⟨q, hq, hq2⟩ := popsAt_sub pops name op hop
    have hct : (ids ++ lnKeepIds network ++ btcKeepIds network ++ taroKeepIds network).contains
        op.key = true := by
      apply mem_contains
      rw [← hq2]
      exact hin_ids _ (hkeysOps.2 q hq)
    show (specialPortIds.contains op.key ||
      (ids ++ lnKeepIds network ++ btcKeepIds network ++ taroKeepIds network).contains op.key) = true
    rw [hct, Bool.or_true]
  -- the ports of every output node are the pruned applied ports of the chart node
  have hnode_ports : ∀ name n, jget out.nodes name = some n →
      ∃ cn, jget chart.nodes name = some cn ∧
        n.ports = jfilter
          (fun portId => specialPortIds.contains portId ||
            (ids ++ lnKeepIds network ++ btcKeepIds network ++ taroKeepIds network).contains portId)
          (japplyAll cn.ports (popsAt pops name)) := by
    intro name n hn
    have h2 := resizeNodes_get_nodup nodesData hwfd _ _ hres name
    rw [hn] at h2
    cases hp : jget (prunePorts
        (ids ++ lnKeepIds network ++ btcKeepIds network ++ taroKeepIds network)
        (japplyPortsAll chart.nodes pops)) name with
    | none => rw [hp] at h2; simp at h2
    | some pn =>
      rw [hp] at h2
      simp only [Option.map_some', Option.some.injEq] at h2
      have hports_n : n.ports = pn.ports := by
        rw [h2]
        by_cases hm : name ∈ jkeys nodesData
        · rw [if_pos hm]; rfl
        · rw [if_neg hm]
      rw [jget_prunePorts] at hp
      cases ha : jget (japplyPortsAll chart.nodes pops) name with
      | none => rw [ha] at hp; simp at hp
      | some an =>
        rw [ha] at hp
        simp only [Option.map_some', Option.some.injEq] at hp
        rw [jget_japplyPortsAll] at ha
        cases hc : jget chart.nodes name with
        | none => rw [hc] at ha; simp at ha
        | some cn =>
          rw [hc] at ha
          simp only [Option.map_some', Option.some.injEq] at ha
          refine ⟨cn, rfl, ?_⟩
          rw [hports_n, ← hp, ← ha]
  -- the chart node ports have unique keys
  have hcn_nodup : ∀ name cn, jget chart.nodes name = some cn →
      (jkeys cn.ports).Nodup := by
    intro name cn hc
    exact hports_nd (name, cn) (mem_of_jget _ _ _ hc)
  -- step A: re-applying the port operations to the output is the identity
  have hA : japplyPortsAll out.nodes pops = out.nodes := by
    apply jmap_ext
    · exact jkeys_japplyPortsAll pops out.nodes
    · rw [jkeys_japplyPortsAll, hkeys]; exact hnodes_nd
    · intro name
      rw [jget_japplyPortsAll]
      cases hn : jget out.nodes name with
      | none => simp
      | some n =>
        simp only [Option.map_some', Option.some.injEq]
        obtain ⟨cn, hc, hports⟩ := hnode_ports name n hn
        have hfix : japplyAll n.ports (popsAt pops name) = n.ports := by
          rw [hports]
          exact japplyAll_refilter_self _ _ _ (hportops name) (hcn_nodup name cn hc)
        rw [hfix]
  -- step B: re-pruning the ports of the output is the identity
  have hB : prunePorts
      (ids ++ lnKeepIds network ++ btcKeepIds network ++ taroKeepIds network)
      out.nodes = out.nodes := by
    apply jmap_ext
    · exact jkeys_prunePorts _ _
    · rw [jkeys_prunePorts, hkeys]; exact hnodes_nd
    · intro name
      rw [jget_prunePorts]
      cases hn : jget out.nodes name with
      | none => simp
      | some n =>
        simp only [Option.map_some', Option.some.injEq]
        obtain ⟨cn, hc, hports⟩ := hnode_ports name n hn
        have : jfilter
            (fun portId => specialPortIds.contains portId ||
              (ids ++ lnKeepIds network ++ btcKeepIds network ++ taroKeepIds network).contains portId)
            n.ports = n.ports := by
          rw [hports, jfilter_idem]
        rw [this]
  -- step C: re-resizing the output is the identity
  have hC : resizeNodes nodesData out.nodes = some out.nodes := by
    exact resizeNodes_fixed nodesData hwfd _ _ hres
  -- step D: re-applying and re-pruning the links is the identity
  have hD : pruneLinks
      (ids ++ lnKeepIds network ++ btcKeepIds network ++ taroKeepIds network)
      (japplyAll out.links (lops ++ ensureOpsOf network)) = out.links := by
    rw [hlinks]
    unfold pruneLinks
    rw [japplyAll_refilter_self _ _ _ hlinkops hlinks_nd]
    exact jfilter_idem _ _
  -- assemble the second pass
  rw [updateChartFromNodes_eq,
    allOps_congr out.nodes chart.nodes (buildPubkeys nodesData) nodesData hskel, hall]
  dsimp only
  rw [hA, hB, hC]
  dsimp only
  rw [hD, hsel, normalizeSelected_idem, ← hsel]

theorem contains_eq_false_of_not_mem (l : List String) (x : String) (h : x ∉ l) :
    l.contains x = false := by
  cases hc : l.contains x with
  | false => rfl
  | true => exact absurd (by simpa [List.contains] using hc) h

theorem resizeNodes_ports (nd : List (String × LightningNodeData)) :
    ∀ m m', resizeNodes nd m = some m' →
      ∀ name, (jget m' name).map INode.ports = (jget m name).map INode.ports := by
  induction nd with
  | nil =>
    intro m m' h name
    rw [resizeNodes_nil] at h
    injection h with h'
    rw [h']
  | cons e rest ih =>
    intro m m' h name
    rw [resizeNodes_cons_eq] at h
    cases hg : jget m e.1 with
    | none => rw [hg] at h; simp at h
    | some n =>
      rw [hg] at h
      simp only [Option.some_bind] at h
      rw [ih _ _ h name]
      by_cases hname : e.1 = name
      · subst hname
        rw [jget_jset_self, hg]
        rfl
      · rw [jget_jset_ne _ _ _ _ hname]

/-- C10: updateChartFromNodes never removes a chart node: every node key of
the input chart is still a node key of the output chart, even when its
network node no longer exists; only links and ports are pruned. -/
theorem updateChartFromNodes_keeps_nodes (chart : IChart) (network : Network)
    (nodesData : LightningNodeMapping) (out : IChart)
    (h : updateChartFromNodes chart network nodesData = some out) :
    ∀ name ∈ jkeys chart.nodes, name ∈ jkeys out.nodes := by
  obtain ⟨pops, lops, ids, hall, hres, hlinks, hsel, hoff, hhov, hscale⟩ :=
    updateChartFromNodes_parts _ _ _ _ h
  have hk : jkeys out.nodes = jkeys chart.nodes := by
    rw [resizeNodes_keys _ _ _ hres, jkeys_prunePorts, jkeys_japplyPortsAll]
  rw [hk]
  exact fun name hn => hn

/-- C4 (amended): after a pass, every link whose id is not on the keep-list
(the live channels unique ids plus the backend, bitcoin-peer and lndbackend
link ids derived from the network) is deleted from the chart, and every port
that is neither one of the six special port ids nor on the keep-list is
deleted from every node.  (The special ports empty-left, empty-right,
backend, peer-left, peer-right and lndbackend are exempt from pruning.) -/
theorem updateChartFromNodes_prunes (chart : IChart) (network : Network)
    (nodesData : LightningNodeMapping) (out : IChart)
    (h : updateChartFromNodes chart network nodesData = some out) :
    (∀ id, id ∉ keepListOf network nodesData → jget out.links id = none) ∧
    (∀ name node portId, jget out.nodes name = some node →
      portId ∉ specialPortIds → portId ∉ keepListOf network nodesData →
      jget node.ports portId = none) := by
  obtain ⟨pops, lops, ids, hall, hres, hlinks, hsel, hoff, hhov, hscale⟩ :=
    updateChartFromNodes_parts _ _ _ _ h
  have hids := allOps_ids _ _ _ pops lops ids hall
  have hkeep : ids ++ lnKeepIds network ++ btcKeepIds network ++ taroKeepIds network =
      keepListOf network nodesData := by
    rw [hids]
    rfl
  constructor
  · intro id hid
    rw [hlinks]
    unfold pruneLinks
    rw [jget_jfilter, hkeep]
    have hc : (keepListOf network nodesData).contains id = false :=
      contains_eq_false_of_not_mem _ _ hid
    rw [if_neg (fun hcc => by rw [hc] at hcc; cases hcc)]
  · intro name node portId hn hsp hkp
    have hports := resizeNodes_ports nodesData _ _ hres name
    rw [hn] at hports
    cases hg : jget (prunePorts
        (ids ++ lnKeepIds network ++ btcKeepIds network ++ taroKeepIds network)
        (japplyPortsAll chart.nodes pops)) name with
    | none => rw [hg] at hports; simp at hports
    | some pn =>
      rw [hg] at hports
      simp only [Option.map_some', Option.some.injEq] at hports
      rw [jget_prunePorts] at hg
      cases ha : jget (japplyPortsAll chart.nodes pops) name with
      | none => rw [ha] at hg; simp at hg
      | some an =>
        rw [ha] at hg
        simp only [Option.map_some', Option.some.injEq] at hg
        have hc1 : specialPortIds.contains portId = false :=
          contains_eq_false_of_not_mem _ _ hsp
        have hc2 : (ids ++ lnKeepIds network ++ btcKeepIds network ++
            taroKeepIds network).contains portId = false := by
          rw [hkeep]
          exact contains_eq_false_of_not_mem _ _ hkp
        rw [hports, ← hg]
        show jget (jfilter (fun pid => specialPortIds.contains pid ||
          (ids ++ lnKeepIds network ++ btcKeepIds network ++
            taroKeepIds network).contains pid) an.ports) portId = none
        rw [jget_jfilter]
        rw [if_neg (fun hcc => by rw [hc1, hc2] at hcc; simp at hcc)]

/-- C5 (amended): a reconciliation pass clears any selection whose type is
not node (link selections in particular), and keeps a node-type selection
unchanged whether or not the selected node exists in the chart. -/
theorem updateChartFromNodes_selected (chart : IChart) (network : Network)
    (nodesData : LightningNodeMapping) (out : IChart)
    (h : updateChartFromNodes chart network nodesData = some out) :
    out.selected = (if chart.selected.type = some "node" then chart.selected
      else { type := none, id := none }) := by
  obtain ⟨pops, lops, ids, hall, hres, hlinks, hsel, hoff, hhov, hscale⟩ :=
    updateChartFromNodes_parts _ _ _ _ h
  rw [hsel]
  rfl

/-! ## Lemmas about initChartFromNetwork -/

theorem jsetAll_append (m : List (String × ILink)) (a b : List ILink) :
    jsetAll m (a ++ b) = jsetAll (jsetAll m a) b := by
  simp [jsetAll, List.foldl_append]

theorem jget_jsetAll_not_mem (ls : List ILink) :
    ∀ m id, (∀ l ∈ ls, l.id ≠ id) → jget (jsetAll m ls) id = jget m id := by
  induction ls with
  | nil => intro m id _; rfl
  | cons l₀ rest ih =>
    intro m id h
    rw [show jsetAll m (l₀ :: rest) = jsetAll (jset m l₀.id l₀) rest from rfl]
    rw [ih _ _ (fun l hl => h l (List.mem_cons_of_mem _ hl))]
    exact jget_jset_ne _ _ _ _ (h l₀ (List.mem_cons_self _ _))

theorem jget_jsetAll_mem (ls : List ILink) :
    ∀ m l, (ls.map (fun x => x.id)).Nodup → l ∈ ls →
      jget (jsetAll m ls) l.id = some l := by
  induction ls with
  | nil => intro m l _ h; simp at h
  | cons l₀ rest ih =>
    intro m l hnd hl
    rw [show jsetAll m (l₀ :: rest) = jsetAll (jset m l₀.id l₀) rest from rfl]
    simp only [List.map_cons, List.nodup_cons] at hnd
    rcases List.mem_cons.mp hl with hl | hl
    · subst hl
      rw [jget_jsetAll_not_mem rest _ _
        (fun x hx hxid => hnd.1 (by rw [← hxid]; exact List.mem_map_of_mem _ hx))]
      exact jget_jset_self _ _ _
    · exact ih _ l hnd.2 hl

theorem jkeys_jsetAll_nodup (ls : List ILink) :
    ∀ m, (jkeys m).Nodup → (jkeys (jsetAll m ls)).Nodup := by
  induction ls with
  | nil => intro m h; exact h
  | cons l₀ rest ih =>
    intro m h
    exact ih _ (jkeys_jset_nodup _ _ _ h)

theorem init_btc_links (bs : List BitcoinNode) :
    ∀ chart : IChart,
      (bs.foldl (fun chart n =>
        let nl := createBitcoinChartNode n
        let chart := { chart with nodes := jset chart.nodes nl.1.id nl.1 }
        match nl.2 with
        | some link => { chart with links := jset chart.links link.id link }
        | none => chart) chart).links =
      jsetAll chart.links (bs.filterMap (fun btc => (createBitcoinChartNode btc).2)) := by
  induction bs with
  | nil => intro chart; rfl
  | cons b rest ih =>
    intro chart
    rw [List.foldl_cons, List.filterMap_cons]
    cases hl : (createBitcoinChartNode b).2 with
    | none => simp only [hl]; rw [ih]
    | some link =>
      simp only [hl]
      rw [ih, show jsetAll chart.links (link :: rest.filterMap
        (fun btc => (createBitcoinChartNode btc).2)) =
        jsetAll (jset chart.links link.id link) (rest.filterMap
          (fun btc => (createBitcoinChartNode btc).2)) from rfl]

theorem init_ln_links (lns : List LightningNode) :
    ∀ chart : IChart,
      (lns.foldl (fun chart n =>
        let nl := createLightningChartNode n
        { chart with nodes := jset chart.nodes nl.1.id nl.1,
                     links := jset chart.links nl.2.id nl.2 }) chart).links =
      jsetAll chart.links (lns.map (fun ln => (createLightningChartNode ln).2)) := by
  induction lns with
  | nil => intro chart; rfl
  | cons ln rest ih =>
    intro chart
    rw [List.foldl_cons, List.map_cons]
    rw [ih]
    rfl

theorem init_taro_links (ts : List TarodNode) :
    ∀ chart : IChart,
      (ts.foldl (fun chart n =>
        let nl := createTarodChartNode n
        { chart with nodes := jset chart.nodes nl.1.id nl.1,
                     links := jset chart.links nl.2.id nl.2 }) chart).links =
      jsetAll chart.links (ts.map (fun taro => (createTarodChartNode taro).2)) := by
  induction ts with
  | nil => intro chart; rfl
  | cons taro rest ih =>
    intro chart
    rw [List.foldl_cons, List.map_cons]
    rw [ih]
    rfl

theorem init_links_eq (network : Network) :
    (initChartFromNetwork network).links = jsetAll [] (initLinksList network) := by
  unfold initChartFromNetwork
  rw [init_taro_links, init_ln_links, init_btc_links]
  unfold initLinksList
  rw [jsetAll_append, jsetAll_append]

theorem btc_ids_elem (b : BitcoinNode) :
    (match b.peers.head? with
     | none => none
     | some peer =>
       if peer = "" then none
       else if charLtb peer.data b.name.data then some (peer ++ "-" ++ b.name)
       else none) =
    ((createBitcoinChartNode b).2).map (fun l => l.id) := by
  cases hp : b.peers.head? with
  | none => simp [createBitcoinChartNode, hp]
  | some peer =>
    by_cases h1 : peer = ""
    · simp [createBitcoinChartNode, hp, h1]
    · by_cases h2 : charLtb peer.data b.name.data
      · simp [createBitcoinChartNode, hp, h1, h2]
      · simp [createBitcoinChartNode, hp, h1, h2]

theorem btc_ids_seg (bs : List BitcoinNode) :
    bs.filterMap (fun btc =>
      match btc.peers.head? with
      | none => none
      | some peer =>
        if peer = "" then none
        else if charLtb peer.data btc.name.data then some (peer ++ "-" ++ btc.name)
        else none) =
    (bs.filterMap (fun btc => (createBitcoinChartNode btc).2)).map (fun l => l.id) := by
  induction bs with
  | nil => rfl
  | cons b rest ih =>
    simp only [List.filterMap_cons, btc_ids_elem b]
    cases hl : (createBitcoinChartNode b).2 with
    | none => simpa using ih
    | some l =>
      simp only [hl, Option.map_some', List.map_cons]
      rw [ih]

theorem initLinkIds_eq (network : Network) :
    initLinkIds network = (initLinksList network).map (fun l => l.id) := by
  unfold initLinkIds initLinksList
  rw [List.map_append, List.map_append, btc_ids_seg]
  congr 1
  congr 1
  · rw [List.map_map]
    rfl
  · rw [List.map_map]
    rfl

theorem charLtb_iff : ∀ as bs : List Char, charLtb as bs = true ↔ as < bs := by
  intro as
  induction as with
  | nil =>
    intro bs
    cases bs with
    | nil => simp [charLtb]
    | cons b bs =>
      simp only [charLtb, true_iff]
      exact List.Lex.nil
  | cons a as ih =>
    intro bs
    cases bs with
    | nil => simp [charLtb]
    | cons b bs =>
      by_cases h1 : a < b
      · simp only [charLtb, if_pos h1, true_iff]
        exact List.Lex.rel h1
      · by_cases h2 : b < a
        · simp only [charLtb, if_neg h1, if_pos h2, Bool.false_eq_true, false_iff]
          intro h
          cases h with
          | rel hr => exact h1 hr
          | cons htl => exact absurd h2 (lt_irrefl a)
        · have hab : a = b := le_antisymm (not_lt.mp h2) (not_lt.mp h1)
          subst hab
          simp only [charLtb, if_neg h1, if_neg h2]
          rw [ih bs]
          constructor
          · exact List.Lex.cons
          · intro h
            cases h with
            | rel hr => exact absurd hr (lt_irrefl a)
            | cons htl => exact htl

theorem charLtb_lt_iff (s t : String) : charLtb s.data t.data = true ↔ s < t := by
  rw [String.lt_iff_toList_lt]
  exact charLtb_iff s.data t.data

theorem initLinks_mem (network : Network) (btc : BitcoinNode) (l : ILink)
    (hmem : btc ∈ network.nodes.bitcoin)
    (hlink : (createBitcoinChartNode btc).2 = some l) :
    l ∈ initLinksList network := by
  unfold initLinksList
  exact List.mem_append_left _ (List.mem_append_left _
    (List.mem_filterMap.mpr ⟨btc, hmem, hlink⟩))

/-- C3 (amended): in the chart built by initChartFromNetwork, a bitcoin node
whose first peer is a non-empty name that sorts strictly before the node name
in string order gets exactly one link with id `<peer>-<name>` from the peer
node on port peer-right to the node itself on port peer-left, provided the
generated link ids are pairwise distinct. The string-order guard
(`btc.name > peer` in createBitcoinChartNode) is essential: a bitcoin node
whose chain predecessor sorts after it (e.g. backend10 after backend9) gets
no link at all, refuting the unconditional claim. -/
theorem initChartFromNetwork_btcpeer_link (network : Network) (btc : BitcoinNode)
    (peer : String) (hmem : btc ∈ network.nodes.bitcoin)
    (hpeer : btc.peers.head? = some peer) (hne : peer ≠ "") (hlt : peer < btc.name)
    (hnd : (initLinkIds network).Nodup) :
    jget (initChartFromNetwork network).links (peer ++ "-" ++ btc.name) =
      some { id := peer ++ "-" ++ btc.name
             fromEnd := { nodeId := peer, portId := "peer-right" }
             toEnd := { nodeId := btc.name, portId := "peer-left" }
             properties := .basic "btcpeer" } ∧
    (jkeys (initChartFromNetwork network).links).count (peer ++ "-" ++ btc.name) = 1 := by
  have hlink : (createBitcoinChartNode btc).2 =
      some { id := peer ++ "-" ++ btc.name
             fromEnd := { nodeId := peer, portId := "peer-right" }
             toEnd := { nodeId := btc.name, portId := "peer-left" }
             properties := .basic "btcpeer" } := by
    show ((match btc.peers.head? with
           | none => none
           | some peer =>
             if peer = "" then none
             else if charLtb peer.data btc.name.data then
               some { id := peer ++ "-" ++ btc.name
                      fromEnd := { nodeId := peer, portId := "peer-right" }
                      toEnd := { nodeId := btc.name, portId := "peer-left" }
                      properties := ILinkProps.basic "btcpeer" }
             else none : Option ILink)) = _
    rw [hpeer]
    dsimp only
    rw [if_neg hne, if_pos ((charLtb_lt_iff peer btc.name).mpr hlt)]
  have hndids : ((initLinksList network).map (fun l => l.id)).Nodup := by
    rw [← initLinkIds_eq]
    exact hnd
  have hmem2 := initLinks_mem network btc _ hmem hlink
  have hget : jget (initChartFromNetwork network).links (peer ++ "-" ++ btc.name) =
      some { id := peer ++ "-" ++ btc.name
             fromEnd := { nodeId := peer, portId := "peer-right" }
             toEnd := { nodeId := btc.name, portId := "peer-left" }
             properties := .basic "btcpeer" } := by
    rw [init_links_eq]
    exact jget_jsetAll_mem (initLinksList network) [] _ hndids hmem2
  refine ⟨hget, ?_⟩
  have hk : (jkeys (initChartFromNetwork network).links).Nodup := by
    rw [init_links_eq]
    exact jkeys_jsetAll_nodup _ _ (by simp [jkeys])
  have hm : (peer ++ "-" ++ btc.name) ∈ jkeys (initChartFromNetwork network).links := by
    rw [mem_jkeys_iff_isSome, hget]
    rfl
  exact List.count_eq_one_of_mem hk hm

theorem initChartFromNetwork_btcpeer_link_witness :
    (initLinkIds exNetwork3).Nodup ∧
    (jget (initChartFromNetwork exNetwork3).links ("backend1" ++ "-" ++ exBtc2.name) =
      some { id := "backend1" ++ "-" ++ exBtc2.name
             fromEnd := { nodeId := "backend1", portId := "peer-right" }
             toEnd := { nodeId := exBtc2.name, portId := "peer-left" }
             properties := .basic "btcpeer" } ∧
     (jkeys (initChartFromNetwork exNetwork3).links).count
       ("backend1" ++ "-" ++ exBtc2.name) = 1) :=
  ⟨by decide,
   initChartFromNetwork_btcpeer_link exNetwork3 exBtc2 "backend1" (by decide) rfl
     (by decide) ((charLtb_lt_iff "backend1" exBtc2.name).mp (by decide)) (by decide)⟩

/-- C3 counterexample: the claim as stated (every bitcoin node with a
non-empty peers list gets its predecessor link) is false. In cexNetwork3 the
second node backend10 has first peer backend9, but "backend10" > "backend9"
fails the string-order guard of createBitcoinChartNode, so no
backend9-backend10 link is created. -/
theorem initChartFromNetwork_btcpeer_cex :
    ¬ (∀ (network : Network) (btc : BitcoinNode) (peer : String),
        btc ∈ network.nodes.bitcoin → btc.peers.head? = some peer →
        jget (initChartFromNetwork network).links (peer ++ "-" ++ btc.name) =
          some { id := peer ++ "-" ++ btc.name
                 fromEnd := { nodeId := peer, portId := "peer-right" }
                 toEnd := { nodeId := btc.name, portId := "peer-left" }
                 properties := .basic "btcpeer" }) := by
  intro hcl
  have h := hcl cexNetwork3 cexBtc10 "backend9" (by decide) rfl
  exact absurd h (by decide)

/-! ## Lemmas about waitFor -/

theorem waitForBudget_eq (interval timeout : Nat) (hi : 0 < interval) :
    (waitForBudget interval timeout : ℤ) = ⌈(timeout : ℚ) / (interval : ℚ)⌉ := by
  have hiq : (0 : ℚ) < (interval : ℚ) := by exact_mod_cast hi
  have hdm := Nat.div_add_mod (timeout + interval - 1) interval
  have hmlt : (timeout + interval - 1) % interval < interval := Nat.mod_lt _ hi
  have hcomm : interval * ((timeout + interval - 1) / interval) =
      ((timeout + interval - 1) / interval) * interval := Nat.mul_comm _ _
  have hn2 : timeout ≤ ((timeout + interval - 1) / interval) * interval := by omega
  have hn1 : ((timeout + interval - 1) / interval) * interval < timeout + interval := by
    omega
  set q : ℕ := (timeout + interval - 1) / interval with hqdef
  rw [waitForBudget, ← hqdef]
  symm
  rw [Int.ceil_eq_iff]
  constructor
  · rw [lt_div_iff₀ hiq]
    have hq1 : (q : ℚ) * (interval : ℚ) < (timeout : ℚ) + (interval : ℚ) := by
      exact_mod_cast hn1
    push_cast
    nlinarith [hq1]
  · rw [div_le_iff₀ hiq]
    have hq2 : (timeout : ℚ) ≤ (q : ℚ) * (interval : ℚ) := by exact_mod_cast hn2
    push_cast
    nlinarith [hq2]

theorem waitForLoop_zero {ε α : Type} (cond : Nat → Except ε α) (k : Nat) :
    waitForLoop cond k 0 = cond k := rfl

theorem waitForLoop_succ {ε α : Type} (cond : Nat → Except ε α) (k r : Nat) :
    waitForLoop cond k (r + 1) =
      match cond k with
      | .ok a => .ok a
      | .error _ => waitForLoop cond (k + 1) r := rfl

theorem waitForLoop_congr {ε α : Type} (cond cond2 : Nat → Except ε α) :
    ∀ r k, (∀ j, k ≤ j → j ≤ k + r → cond j = cond2 j) →
      waitForLoop cond k r = waitForLoop cond2 k r := by
  intro r
  induction r with
  | zero =>
    intro k h
    rw [waitForLoop_zero, waitForLoop_zero]
    exact h k le_rfl (by omega)
  | succ r ih =>
    intro k h
    rw [waitForLoop_succ, waitForLoop_succ, h k le_rfl (by omega)]
    cases cond2 k with
    | ok a => rfl
    | error e =>
      show waitForLoop cond (k + 1) r = waitForLoop cond2 (k + 1) r
      exact ih (k + 1) (fun j h1 h2 => h j (by omega) (by omega))

theorem waitForLoop_first_ok {ε α : Type} (cond : Nat → Except ε α) :
    ∀ r k j a, k ≤ j → j ≤ k + r → cond j = .ok a →
      (∀ i, k ≤ i → i < j → ∃ e, cond i = .error e) →
      waitForLoop cond k r = .ok a := by
  intro r
  induction r with
  | zero =>
    intro k j a hkj hjk hok _
    have hjeq : j = k := by omega
    subst hjeq
    rw [waitForLoop_zero, hok]
  | succ r ih =>
    intro k j a hkj hjk hok hprev
    rw [waitForLoop_succ]
    by_cases hjkeq : j = k
    · subst hjkeq
      rw [hok]
    · obtain ⟨e, he⟩ := hprev k le_rfl (by omega)
      rw [he]
      show waitForLoop cond (k + 1) r = .ok a
      exact ih (k + 1) j a (by omega) (by omega) hok
        (fun i h1 h2 => hprev i (by omega) h2)

theorem waitForLoop_all_fail {ε α : Type} (cond : Nat → Except ε α) :
    ∀ r k, (∀ i, k ≤ i → i ≤ k + r → ∃ e, cond i = .error e) →
      waitForLoop cond k r = cond (k + r) := by
  intro r
  induction r with
  | zero =>
    intro k _
    rw [waitForLoop_zero]
    rfl
  | succ r ih =>
    intro k h
    rw [waitForLoop_succ]
    obtain ⟨e, he⟩ := h k le_rfl (by omega)
    rw [he]
    show waitForLoop cond (k + 1) r = cond (k + (r + 1))
    rw [ih (k + 1) (fun i h1 h2 => h i (by omega) (by omega))]
    congr 1
    omega

/-- C9 (amended): waitFor terminates within a bounded number of attempts, but
the bound is `⌈timeout/interval⌉ + 1` further attempts after the swallowed
initial one, not `timeout/interval`.  For positive interval: (1) the result
depends only on attempts `0 .. waitForBudget interval timeout + 1` (so no
attempt beyond that bound is ever made); (2) an immediately successful
initial attempt resolves with its result; (3) if some tick
`1 ≤ j ≤ waitForBudget interval timeout + 1` is the first successful attempt,
waitFor resolves with its result; (4) if every attempt up to the bound fails,
waitFor rejects with the error of the last attempt, which is attempt
`waitForBudget interval timeout + 1`.  The stated claim (at most
timeout/interval further polls) is refuted by waitFor_attempts_cex. -/
theorem waitFor_spec {ε α : Type} (interval timeout : Nat) (_hi : 0 < interval)
    (cond cond2 : Nat → Except ε α) :
    ((∀ j, j ≤ waitForBudget interval timeout + 1 → cond j = cond2 j) →
      waitFor cond interval timeout = waitFor cond2 interval timeout) ∧
    (∀ a, cond 0 = .ok a → waitFor cond interval timeout = .ok a) ∧
    (∀ j a, 1 ≤ j → j ≤ waitForBudget interval timeout + 1 → cond j = .ok a →
      (∀ i, i < j → ∃ e, cond i = .error e) →
      waitFor cond interval timeout = .ok a) ∧
    ((∀ i, i ≤ waitForBudget interval timeout + 1 → ∃ e, cond i = .error e) →
      waitFor cond interval timeout = cond (waitForBudget interval timeout + 1)) := by
  refine ⟨?_, ?_, ?_, ?_⟩
  · intro h
    show (match cond 0 with
          | Except.ok a => Except.ok a
          | Except.error _ => waitForLoop cond 1 (waitForBudget interval timeout)) =
         (match cond2 0 with
          | Except.ok a => Except.ok a
          | Except.error _ => waitForLoop cond2 1 (waitForBudget interval timeout))
    rw [h 0 (by omega)]
    cases cond2 0 with
    | ok a => rfl
    | error e =>
      show waitForLoop cond 1 (waitForBudget interval timeout) =
           waitForLoop cond2 1 (waitForBudget interval timeout)
      exact waitForLoop_congr cond cond2 (waitForBudget interval timeout) 1
        (fun j h1 h2 => h j (by omega))
  · intro a h
    show (match cond 0 with
          | Except.ok a => Except.ok a
          | Except.error _ => waitForLoop cond 1 (waitForBudget interval timeout)) =
         Except.ok a
    rw [h]
  · intro j a h1 hj hok hprev
    obtain ⟨e0, he0⟩ := hprev 0 (by omega)
    show (match cond 0 with
          | Except.ok a => Except.ok a
          | Except.error _ => waitForLoop cond 1 (waitForBudget interval timeout)) =
         Except.ok a
    rw [he0]
    show waitForLoop cond 1 (waitForBudget interval timeout) = .ok a
    exact waitForLoop_first_ok cond (waitForBudget interval timeout) 1 j a h1
      (by omega) hok (fun i hi1 hi2 => hprev i hi2)
  · intro h
    obtain ⟨e0, he0⟩ := h 0 (by omega)
    show (match cond 0 with
          | Except.ok a => Except.ok a
          | Except.error _ => waitForLoop cond 1 (waitForBudget interval timeout)) =
         cond (waitForBudget interval timeout + 1)
    rw [he0]
    show waitForLoop cond 1 (waitForBudget interval timeout) =
         cond (waitForBudget interval timeout + 1)
    rw [waitForLoop_all_fail cond (waitForBudget interval timeout) 1
      (fun i hi1 hi2 => h i (by omega))]
    congr 1
    omega

theorem waitFor_spec_witness :
    waitFor (fun k => (Except.error k : Except Nat Nat)) 500 5000 =
      Except.error (waitForBudget 500 5000 + 1) ∧
    waitForBudget 500 5000 + 1 = 11 :=
  ⟨(waitFor_spec 500 5000 (by decide)
      (fun k => (Except.error k : Except Nat Nat))
      (fun k => (Except.error k : Except Nat Nat))).2.2.2
    (fun i _ => ⟨i, rfl⟩),
   by decide⟩

/-- C9 counterexample: the bound stated in the claim (at most timeout/interval
further polls after the initial attempt) is exceeded.  With the JavaScript
defaults interval = 500 and timeout = 5000 and a condition that always throws,
the rejection carries the error of further attempt number 11, while
timeout/interval = 10. -/
theorem waitFor_attempts_cex :
    ¬ (∀ (cond : Nat → Except Nat Nat) (interval timeout : Nat), 0 < interval →
        ∀ K, waitFor cond interval timeout = Except.error K →
          (K : ℚ) ≤ (timeout : ℚ) / (interval : ℚ)) := by
  intro hcl
  have h := hcl (fun k => Except.error k) 500 5000 (by decide) 11 rfl
  norm_num at h

/-! ## Lemmas about the registry model -/

theorem getById_ok_id (st : RegistryState) (id : Nat) (net : Network)
    (h : getById st id = .ok net) : net.id = id := by
  unfold getById at h
  cases hf : st.networks.find? (fun n => n.id == id) with
  | none => rw [hf] at h; cases h
  | some n =>
    rw [hf] at h
    cases h
    have := List.find?_some hf
    simpa using this

theorem getById_find (st : RegistryState) (id : Nat) (net : Network)
    (h : getById st id = .ok net) :
    st.networks.find? (fun n => n.id == id) = some net := by
  unfold getById at h
  cases hf : st.networks.find? (fun n => n.id == id) with
  | none => rw [hf] at h; cases h
  | some n => rw [hf] at h; cases h; rfl

theorem find?_map_put (id : Nat) (net2 : Network) (h2 : net2.id = id) :
    ∀ l : List Network, (l.find? (fun n => n.id == id)).isSome →
      (l.map (fun n => if n.id = net2.id then net2 else n)).find?
        (fun n => n.id == id) = some net2 := by
  intro l
  induction l with
  | nil => intro h; simp [List.find?] at h
  | cons n l ih =>
    intro h
    rw [List.map_cons]
    by_cases hn : n.id = id
    · rw [if_pos (by rw [hn, h2])]
      rw [List.find?_cons_of_pos _ (by simp [h2])]
    · rw [if_neg (by rw [h2]; exact hn)]
      rw [List.find?_cons_of_neg _ (by simp [hn])]
      apply ih
      rw [List.find?_cons_of_neg _ (by simp [hn])] at h
      exact h

theorem getById_put (st : RegistryState) (id : Nat) (net net2 : Network)
    (hfind : getById st id = .ok net) (h2 : net2.id = id) :
    getById (putNetwork st net2) id = .ok net2 := by
  unfold getById putNetwork
  have hf := getById_find st id net hfind
  rw [find?_map_put id net2 h2 st.networks (by rw [hf]; rfl)]

theorem setAllStatus_id (s : Status) (net : Network) :
    (setAllStatus s net).id = net.id := rfl

theorem setAllStatus_status (s : Status) (net : Network) :
    (setAllStatus s net).status = s := rfl

theorem setAllStatus_bitcoin (s : Status) (net : Network) :
    ∀ b ∈ (setAllStatus s net).nodes.bitcoin, b.status = s := by
  intro b hb
  simp only [setAllStatus, List.mem_map] at hb
  obtain ⟨y, _, rfl⟩ := hb
  rfl

theorem setAllStatus_lightning (s : Status) (net : Network) :
    ∀ ln ∈ (setAllStatus s net).nodes.lightning, ln.status = s := by
  intro ln hln
  simp only [setAllStatus, List.mem_map] at hln
  obtain ⟨y, _, rfl⟩ := hln
  rfl

/-- C2 (spec-modelled): when the container collaborator rejects the start with
some message, start(id) on an existing network leaves the network stored with
status Error on the network itself and on every bitcoin and lightning node,
and the action itself rejects with a transport error carrying the original
message. -/
theorem startNetwork_failure (dockerStart : Network → Except String Unit)
    (st : RegistryState) (id : Nat) (net : Network) (msg : String)
    (hfind : getById st id = .ok net)
    (hfail : dockerStart (setAllStatus .Starting net) = .error msg) :
    (startNetwork dockerStart st id).2 = .error (.transport msg) ∧
    ∃ net2, getById (startNetwork dockerStart st id).1 id = .ok net2 ∧
      net2.status = .Error ∧
      (∀ b ∈ net2.nodes.bitcoin, b.status = .Error) ∧
      (∀ ln ∈ net2.nodes.lightning, ln.status = .Error) := by
  have hid : net.id = id := getById_ok_id st id net hfind
  unfold startNetwork
  rw [hfind]
  dsimp only
  rw [hfail]
  dsimp only
  refine ⟨rfl, setAllStatus .Error (setAllStatus .Starting net), ?_, rfl,
    setAllStatus_bitcoin _ _, setAllStatus_lightning _ _⟩
  apply getById_put _ _ (setAllStatus .Starting net) _ ?_ (by rw [setAllStatus_id, setAllStatus_id, hid])
  exact getById_put st id net _ hfind (by rw [setAllStatus_id, hid])

theorem startNetwork_failure_witness :
    (startNetwork dockerRejecting c7Registry 1).2 = .error (.transport "start failed") ∧
    ∃ net2, getById (startNetwork dockerRejecting c7Registry 1).1 1 = .ok net2 ∧
      net2.status = .Error ∧
      (∀ b ∈ net2.nodes.bitcoin, b.status = .Error) ∧
      (∀ ln ∈ net2.nodes.lightning, ln.status = .Error) :=
  startNetwork_failure dockerRejecting c7Registry 1 c7Network "start failed" rfl rfl

/-- C7 (spec-modelled): on a network whose bitcoin list has exactly one node,
removeBitcoinNode fails with the InvariantError message regardless of the
targeted name; the action returns only the error, performing no state
mutation. -/
theorem removeBitcoinNode_only_node (compat : LightningNode → BitcoinNode → Bool)
    (st : RegistryState) (networkId : Nat) (nodeName : String) (net : Network)
    (hfind : getById st networkId = .ok net)
    (hlen : net.nodes.bitcoin.length = 1) :
    removeBitcoinNode compat st networkId nodeName =
      .error (.invariant "Cannot remove the only bitcoin node") := by
  unfold removeBitcoinNode
  rw [hfind]
  dsimp only
  rw [if_pos hlen]

theorem removeBitcoinNode_only_node_witness :
    removeBitcoinNode compatAll c7Registry 1 "backend1" =
      .error (.invariant "Cannot remove the only bitcoin node") ∧
    removeBitcoinNode compatAll c7Registry 1 "no-such-node" =
      .error (.invariant "Cannot remove the only bitcoin node") :=
  ⟨removeBitcoinNode_only_node compatAll c7Registry 1 "backend1" c7Network rfl rfl,
   removeBitcoinNode_only_node compatAll c7Registry 1 "no-such-node" c7Network rfl rfl⟩

/-- C8 (spec-modelled): toggle(id) on an existing network whose status is
Starting or Stopping changes nothing: it returns the registry state untouched
and resolves without invoking either collaborator transition. -/
theorem toggleNetwork_noop (dockerStart dockerStop : Network → Except String Unit)
    (st : RegistryState) (id : Nat) (net : Network)
    (hfind : getById st id = .ok net)
    (hst : net.status = .Starting ∨ net.status = .Stopping) :
    toggleNetwork dockerStart dockerStop st id = (st, .ok ()) := by
  unfold toggleNetwork
  rw [hfind]
  dsimp only
  rcases hst with h | h <;> rw [h]

theorem toggleNetwork_noop_witness :
    toggleNetwork dockerOk dockerOk c8Registry 2 = (c8Registry, .ok ()) ∧
    toggleNetwork dockerOk dockerOk c8Registry 3 = (c8Registry, .ok ()) :=
  ⟨toggleNetwork_noop dockerOk dockerOk c8Registry 2 c8NetworkStarting rfl (Or.inl rfl),
   toggleNetwork_noop dockerOk dockerOk c8Registry 3 c8NetworkStopping rfl (Or.inr rfl)⟩

/-- C6 (amended, spec-modelled): removing a found bitcoin node from a network
with more than one bitcoin node succeeds when every dependent lightning node
has a compatible remaining backend, and then the peer chain is re-linked: the
remaining bitcoin list is the filtered list with every node whose first peer
was the removed node given the removed node\x27s own peers, so the node that
pointed at the removed node now points at the removed node\x27s predecessor.
The unconditional form of the claim (success for every interior node of any
network with at least two bitcoin nodes) is refuted by
removeBitcoinNode_relinks_cex: a dependent lightning node with no compatible
remaining backend makes the removal fail. -/
theorem removeBitcoinNode_relinks (compat : LightningNode → BitcoinNode → Bool)
    (st : RegistryState) (networkId : Nat) (nodeName : String)
    (net : Network) (removed : BitcoinNode)
    (hfind : getById st networkId = .ok net)
    (hlen : ¬ net.nodes.bitcoin.length = 1)
    (hmem : net.nodes.bitcoin.find? (fun n => n.name == nodeName) = some removed)
    (hdeps : (net.nodes.lightning.filter (fun ln => ln.backendName = removed.name)).all
      (fun ln => (net.nodes.bitcoin.filter (fun n => n.name ≠ nodeName)).any
        (fun b => compat ln b)) = true) :
    ∃ net2, removeBitcoinNode compat st networkId nodeName = .ok (putNetwork st net2) ∧
      net2.nodes.bitcoin = (net.nodes.bitcoin.filter (fun n => n.name ≠ nodeName)).map
        (fun n => if n.peers.head? = some removed.name
                  then { n with peers := removed.peers } else n) ∧
      (∀ n ∈ net.nodes.bitcoin.filter (fun n => n.name ≠ nodeName),
        n.peers.head? = some removed.name →
          ∃ n2 ∈ net2.nodes.bitcoin, n2.name = n.name ∧ n2.peers = removed.peers) := by
  unfold removeBitcoinNode
  rw [hfind]
  dsimp only
  rw [if_neg hlen, hmem]
  dsimp only
  rw [if_pos hdeps]
  refine ⟨_, rfl, rfl, ?_⟩
  intro n hn hpeer
  refine ⟨{ n with peers := removed.peers }, ?_, rfl, rfl⟩
  have := List.mem_map_of_mem
    (fun n => if n.peers.head? = some removed.name
              then { n with peers := removed.peers } else n) hn
  dsimp only at this
  rw [if_pos hpeer] at this
  exact this

theorem removeBitcoinNode_relinks_witness :
    ∃ net2, removeBitcoinNode compatAll c6Registry 1 "backend2" = .ok (putNetwork c6Registry net2) ∧
      net2.nodes.bitcoin = (c6Network.nodes.bitcoin.filter (fun n => n.name ≠ "backend2")).map
        (fun n => if n.peers.head? = some exBtc2.name
                  then { n with peers := exBtc2.peers } else n) ∧
      (∀ n ∈ c6Network.nodes.bitcoin.filter (fun n => n.name ≠ "backend2"),
        n.peers.head? = some exBtc2.name →
          ∃ n2 ∈ net2.nodes.bitcoin, n2.name = n.name ∧ n2.peers = exBtc2.peers) :=
  removeBitcoinNode_relinks compatAll c6Registry 1 "backend2" c6Network exBtc2
    rfl (by decide) rfl rfl

/-- C6 counterexample: the claim as stated is false.  In the chain
backend1 - backend2 - backend3 with a lightning node depending on backend2 and
a compatibility table under which no remaining backend is compatible,
removing the interior node backend2 does not succeed: it fails with the
dependency InvariantError, although the network has three bitcoin nodes and
backend2 is interior. -/
theorem removeBitcoinNode_relinks_cex :
    ¬ (∀ (compat : LightningNode → BitcoinNode → Bool) (st : RegistryState)
         (networkId : Nat) (net : Network) (i : Nat) (removed : BitcoinNode),
        getById st networkId = .ok net →
        net.nodes.bitcoin[i]? = some removed →
        0 < i → i + 1 < net.nodes.bitcoin.length →
        ∃ st2, removeBitcoinNode compat st networkId removed.name = .ok st2) := by
  intro hcl
  obtain ⟨st2, h⟩ := hcl compatNone c6RegistryDep 1 c6NetworkDep 1 exBtc2
    rfl rfl (by decide) (by decide)
  rw [show removeBitcoinNode compatNone c6RegistryDep 1 exBtc2.name =
      .error (.invariant
        "There are no other compatible backends for the dependent nodes to connect to.")
    from rfl] at h
  exact Except.noConfusion h

theorem updateChartFromNodes_idempotent_witness :
    WfChart exChart1 ∧ WfMapping exData1 ∧
    updateChartFromNodes exChart1 exNetwork1 exData1 = some exOut1 ∧
    updateChartFromNodes exOut1 exNetwork1 exData1 = some exOut1 :=
  ⟨⟨by decide, by decide, by decide⟩, show (jkeys exData1).Nodup by decide, rfl,
   updateChartFromNodes_idempotent exChart1 exNetwork1 exData1 exOut1
     ⟨by decide, by decide, by decide⟩ (show (jkeys exData1).Nodup by decide) rfl⟩

theorem updateChartFromNodes_keeps_nodes_witness :
    "alice" ∈ jkeys cexChart4.nodes ∧ "alice" ∈ jkeys exOut4w.nodes :=
  ⟨by decide,
   updateChartFromNodes_keeps_nodes cexChart4 emptyNetwork [] exOut4w rfl "alice"
     (by decide)⟩

theorem updateChartFromNodes_prunes_witness :
    jget exOut4w.links "stale" = none :=
  (updateChartFromNodes_prunes cexChart4 emptyNetwork [] exOut4w rfl).1 "stale"
    (by decide)

/-- C4 counterexample: the unrestricted port clause of the claim is false.
In cexChart4 the alice node carries the port empty-left, which is on no
keep-list of the pass (the network is empty and there is no live data), yet
the port survives the pass: the six special port ids are exempt from
pruning. -/
theorem updateChartFromNodes_prunes_cex :
    ¬ (∀ (chart : IChart) (network : Network) (nodesData : LightningNodeMapping)
         (out : IChart),
        updateChartFromNodes chart network nodesData = some out →
        ∀ name node portId, jget out.nodes name = some node →
          portId ∉ keepListOf network nodesData →
          jget node.ports portId = none) := by
  intro hcl
  have h := hcl cexChart4 emptyNetwork [] cexOut4 rfl "alice" cexChart4AliceNode
    "empty-left" rfl (by decide)
  exact absurd h (by decide)

theorem updateChartFromNodes_selected_witness :
    cexOut5.selected = (if cexChart5.selected.type = some "node" then cexChart5.selected
      else { type := none, id := none }) :=
  updateChartFromNodes_selected cexChart5 emptyNetwork [] cexOut5 rfl

/-- C5 counterexample: the claim that a node selection is kept only while the
selected node still exists is false.  In cexChart5 the selection points at
the node ghost, the chart has no nodes at all, and the selection survives
the pass verbatim: the code checks only `selected.type === \x27node\x27` and
never that the node exists. -/
theorem updateChartFromNodes_selected_cex :
    ¬ (∀ (chart : IChart) (network : Network) (nodesData : LightningNodeMapping)
         (out : IChart),
        updateChartFromNodes chart network nodesData = some out →
        ∀ id, chart.selected = { type := some "node", id := some id } →
          id ∉ jkeys out.nodes →
          out.selected = { type := none, id := none }) := by
  intro hcl
  have h := hcl cexChart5 emptyNetwork [] cexOut5 rfl "ghost" rfl (by decide)
  exact absurd h (by decide)
